import Mathlib

/-!
Verification of the spreadsheet-ingestion core of the Recruitment-Dashboard
repository.  The TypeScript source (server/services/sheetsService.ts and
server/services/configService.ts) is shallowly embedded: cells are `String`,
JS numbers produced by the numeric-coercion helper are modelled as exact
decimal rationals (`ℚ`), JS falsy-`||` on strings is `jsOr`, absent object
keys read as `""` (every lookup in the source occurs in a falsy-coalescing
context, where `undefined` and `""` behave identically), and asynchronous
effects (store writes, timer state) are explicit state passing.
-/

namespace Dashboard

/-- JS `a || b` on strings: `""` is falsy, everything else truthy. -/
def jsOr (a b : String) : String := if a = "" then b else a

/-- ASCII whitespace recognised by JS `String.prototype.trim` on the
inputs this pipeline handles. -/
def isWSChar (c : Char) : Bool :=
  c = ' ' || c = '\t' || c = '\n' || c = '\r'

/-- Trim on character lists: drop whitespace from both ends. -/
def trimChars (cs : List Char) : List Char :=
  ((cs.dropWhile isWSChar).reverse.dropWhile isWSChar).reverse

/-- JS `String.prototype.trim` (ASCII fragment). -/
def trimStr (s : String) : String := String.mk (trimChars s.toList)

/-- JS `String.prototype.toLowerCase` (ASCII fragment). -/
def lowerStr (s : String) : String := String.mk (s.toList.map Char.toLower)

/-- JS `row[i] !== undefined ? String(row[i]) : ''` and also
`(row[i] || '')`: out-of-range reads yield `""`. -/
def getCell (row : List String) (i : Nat) : String := row.getD i ""

/-- Characters kept by the numeric-coercion strip
`String(v).replace(/[^0-9.-]+/g, '')`. -/
def isNumChar (c : Char) : Bool :=
  ('0' ≤ c && c ≤ '9') || c = '.' || c = '-'

/-- The strip step of `parseNum`: remove every character that is not a
digit, a dot or a minus. -/
def stripNum (s : String) : String := String.mk (s.toList.filter isNumChar)

/-- Decimal digit test restricted to ASCII. -/
def isDigitChar (c : Char) : Bool := '0' ≤ c && c ≤ '9'

/-- Value of one ASCII digit character. -/
def digitVal (c : Char) : Nat := c.toNat - 48

/-- Fold a most-significant-first list of digit characters to a natural. -/
def natFromDigitChars (cs : List Char) : Nat :=
  cs.foldl (fun a c => 10 * a + digitVal c) 0

/-- JS `Number(s)` on strings made only of digits, dots and minus signs
(the image of `stripNum`): `none` is `NaN`.  An optional single leading
minus, then digits with at most one dot and at least one digit.
Values are exact decimal rationals. -/
def parseUnsigned (cs : List Char) : Option ℚ :=
  let a := cs.takeWhile isDigitChar
  let r := cs.drop a.length
  match r with
  | [] => if a.isEmpty then none else some (natFromDigitChars a)
  | '.' :: b =>
      if b.all isDigitChar && (!a.isEmpty || !b.isEmpty) then
        some (mkRat (natFromDigitChars a * 10 ^ b.length + natFromDigitChars b) (10 ^ b.length))
      else none
  | _ => none

/-- JS `Number` on stripped strings; `Number("") = 0`. -/
def jsNumber (s : String) : Option ℚ :=
  match s.toList with
  | [] => some 0
  | '-' :: rest => (parseUnsigned rest).map Neg.neg
  | cs => parseUnsigned cs

/-- `const parseNum = (v) => (v ? Number(String(v).replace(/[^0-9.-]+/g, '')) || 0 : 0)`
from sheetsService.ts.  `|| 0` sends `NaN` (and `-0`) to `0`. -/
def parseNum (v : String) : ℚ :=
  if v = "" then 0 else (jsNumber (stripNum v)).getD 0

/-- A fulfilled sheets API response: `values` may be absent (`none`). -/
structure SheetResp where
  values? : Option (List (List String))
deriving DecidableEq

/-- A settled fetch: `none` models a rejected promise mapped to `null` by
`results.map(r => r.status === 'fulfilled' ? r.value : null)`. -/
abbrev FetchOutcome := Option SheetResp

/-- `byName[h] = row[i] !== undefined ? String(row[i]) : ''` assigned in
header order, so a duplicated header keeps the last binding; a missing key
reads as `""` (all reads occur in falsy-coalescing positions). -/
def byNameGet (header row : List String) (k : String) : String :=
  match header.enum.reverse.find? (fun p => p.2 = k) with
  | some (i, _) => getCell row i
  | none => ""

/-- Header normalisation `String(h ?? '').trim().toLowerCase()`. -/
def headerLower (hdr : List String) : List String :=
  hdr.map (fun h => lowerStr (trimStr h))

/-- Split on the character class `[,;|]`, keeping empty segments. -/
def splitDelims : List Char → List (List Char)
  | [] => [[]]
  | c :: rest =>
    if c = ',' ∨ c = ';' ∨ c = '|' then
      [] :: splitDelims rest
    else
      match splitDelims rest with
      | [] => [[c]]
      | seg :: segs => (c :: seg) :: segs

/-- `(s).split(/[,;|]/).map(s => s.trim()).filter(Boolean)`. -/
def splitSkills (s : String) : List String :=
  ((splitDelims s.toList).map (fun cs => trimStr (String.mk cs))).filter
    (fun t => t ≠ "")

/-- Recruiter record shape produced by `parseRecruiters`. -/
structure RecruiterRec where
  name : String
  email : String
  phone : String
  department : String
  territory : String
  hired : ℚ
  joinDate : String
  reportingManager : String
  remarks : String
  backendCallingsRemarks : String
  recruiterBackendCallings : String
  status : String
  trend : String
  location : String
deriving DecidableEq

/-- Candidate record shape produced by `parseCandidates`. -/
structure CandidateRec where
  name : String
  email : String
  phone : String
  position : String
  experience : String
  skills : List String
  status : String
  salary : ℚ
  recruiter : String
  reportingManager : String
  client : String
  appliedDate : String
  doj : String
  salaryDetails : String
  location : String
  remarks : String
  backendCallingsRemarks : String
deriving DecidableEq

/-- Client record shape produced by `parseClients`. -/
structure ClientRec where
  name : String
  company : String
  email : String
  phone : String
  industry : String
  totalHired : ℚ
  avgDaysToFill : ℚ
  status : String
  location : String
  contactNumber : String
  lastActivity : String
  remarks : String
  backendCallingsRemarks : String
deriving DecidableEq

/-- Performance record shape produced by `parsePerformance`. -/
structure PerfRec where
  month : String
  recruiters : ℚ
  hired : ℚ
  target : ℚ
deriving DecidableEq

/-- `parseRecruiters` from sheetsService.ts: header-alias lookup, then
fixed positional column fallback, then hard default. -/
def parseRecruiters (response : SheetResp) : List RecruiterRec :=
  match response.values? with
  | none => []
  | some [] => []
  | some (hdr :: rows) =>
    if rows.isEmpty then [] else
    let header := headerLower hdr
    rows.map (fun row =>
      let bn := fun k => byNameGet header row k
      let pos := fun i => getCell row i
      { name := jsOr (bn "name") (jsOr (bn "full name") (jsOr (bn "recruiter") (pos 0)))
        email := jsOr (bn "email") (jsOr (bn "email id") (pos 1))
        phone := jsOr (bn "phone") (jsOr (bn "contact number") (pos 2))
        department := jsOr (bn "department") (pos 3)
        territory := jsOr (bn "territory") (jsOr (bn "locations") (pos 4))
        hired := parseNum (jsOr (bn "hired") (jsOr (bn "total hired")
          (jsOr (bn "hires") (jsOr (pos 5) "0"))))
        joinDate := jsOr (bn "joindate") (jsOr (bn "join date")
          (jsOr (bn "start date") (jsOr (bn "doj") (pos 6))))
        reportingManager := jsOr (bn "reporting manager") (bn "reportingmanager")
        remarks := bn "remarks"
        backendCallingsRemarks := jsOr (bn "backend callings remarks")
          (bn "backendcallingsremarks")
        recruiterBackendCallings := jsOr (bn "recruiter backend callings")
          (bn "recruiterbackendcallings")
        status := jsOr (bn "status") (jsOr (pos 7) "active")
        trend := jsOr (bn "trend") (jsOr (pos 8) "up")
        location := jsOr (bn "location") (pos 9) })

/-- `parseCandidates` from sheetsService.ts. -/
def parseCandidates (response : SheetResp) : List CandidateRec :=
  match response.values? with
  | none => []
  | some [] => []
  | some (hdr :: rows) =>
    if rows.isEmpty then [] else
    let header := headerLower hdr
    rows.map (fun row =>
      let bn := fun k => byNameGet header row k
      let pos := fun i => getCell row i
      { name := jsOr (bn "name") (pos 0)
        email := jsOr (bn "email") (jsOr (bn "email id") (pos 1))
        phone := jsOr (bn "phone") (jsOr (bn "contact number") (pos 2))
        position := jsOr (bn "position") (jsOr (bn "role") (pos 3))
        experience := jsOr (bn "experience") (pos 4)
        skills := splitSkills (jsOr (bn "skills") (pos 5))
        status := jsOr (bn "status") (jsOr (pos 6) "pending")
        salary := parseNum (jsOr (bn "salary") (jsOr (bn "salary details")
          (jsOr (pos 7) "0")))
        recruiter := jsOr (bn "recruiter") (pos 8)
        reportingManager := bn "reporting manager"
        client := jsOr (bn "client") (pos 9)
        appliedDate := jsOr (bn "applieddate") (jsOr (bn "applied date")
          (jsOr (bn "doj") (pos 10)))
        doj := bn "doj"
        salaryDetails := bn "salary details"
        location := jsOr (bn "location") (pos 11)
        remarks := bn "remarks"
        backendCallingsRemarks := bn "backend callings remarks" })

/-- `parseClients` from sheetsService.ts. -/
def parseClients (response : SheetResp) : List ClientRec :=
  match response.values? with
  | none => []
  | some [] => []
  | some (hdr :: rows) =>
    if rows.isEmpty then [] else
    let header := headerLower hdr
    rows.map (fun row =>
      let bn := fun k => byNameGet header row k
      let pos := fun i => getCell row i
      { name := jsOr (bn "name") (pos 0)
        company := jsOr (bn "company") (pos 1)
        email := jsOr (bn "email") (jsOr (bn "email id") (pos 2))
        phone := jsOr (bn "phone") (jsOr (bn "contact number") (pos 3))
        industry := jsOr (bn "industry") (pos 4)
        totalHired := parseNum (jsOr (bn "total hired") (jsOr (bn "totalhired")
          (jsOr (bn "hires") (jsOr (pos 5) "0"))))
        avgDaysToFill := parseNum (jsOr (bn "avg daystofill") (jsOr (bn "avgdays")
          (jsOr (pos 6) "0")))
        status := jsOr (bn "status") (jsOr (pos 7) "active")
        location := jsOr (bn "location") (jsOr (bn "locations") (pos 8))
        contactNumber := bn "contact number"
        lastActivity := jsOr (bn "lastactivity") (jsOr (bn "last activity") (pos 9))
        remarks := bn "remarks"
        backendCallingsRemarks := bn "backend callings remarks" })

/-- `parsePerformance` from sheetsService.ts. -/
def parsePerformance (response : SheetResp) : List PerfRec :=
  match response.values? with
  | none => []
  | some [] => []
  | some (hdr :: rows) =>
    if rows.isEmpty then [] else
    let header := headerLower hdr
    rows.map (fun row =>
      let bn := fun k => byNameGet header row k
      let pos := fun i => getCell row i
      { month := jsOr (bn "month") (jsOr (bn "date") (pos 0))
        recruiters := parseNum (jsOr (bn "recruiters") (jsOr (pos 1) "0"))
        hired := parseNum (jsOr (bn "hired") (jsOr (pos 2) "0"))
        target := parseNum (jsOr (bn "target") (jsOr (pos 3) "0")) })

/-- The four logical entity kinds. -/
inductive SheetKind
  | recruiters
  | candidates
  | clients
  | performance
deriving DecidableEq

/-- Keyword set checked first by `inferType`. -/
def candidateKeywords : List String :=
  ["position", "role", "applieddate", "applied date", "salary", "doj", "client"]

/-- Keyword set checked second by `inferType`. -/
def clientKeywords : List String :=
  ["company", "industry", "total hired", "avgdaystofill", "last activity"]

/-- Keyword set checked third by `inferType`. -/
def recruiterKeywords : List String :=
  ["hired", "territory", "trend", "join date", "joindate", "department"]

/-- Keyword set checked fourth by `inferType`. -/
def performanceKeywords : List String :=
  ["month", "target", "hired"]

/-- `const has = (keys) => keys.some(k => header.includes(k))`. -/
def hasAnyKeyword (keys header : List String) : Bool :=
  keys.any (fun k => header.contains k)

/-- `inferType` from `importSheetsAndSave`: first matching keyword set in
the fixed order candidates, clients, recruiters, performance; `none`
(JS `null`) for a null response, absent values, an empty values array, or
a header matching no set. -/
def inferType (resp : FetchOutcome) : Option SheetKind :=
  match resp with
  | none => none
  | some r =>
    match r.values? with
    | none => none
    | some [] => none
    | some (hdr :: _) =>
      let header := headerLower hdr
      if hasAnyKeyword candidateKeywords header then some .candidates
      else if hasAnyKeyword clientKeywords header then some .clients
      else if hasAnyKeyword recruiterKeywords header then some .recruiters
      else if hasAnyKeyword performanceKeywords header then some .performance
      else none

/-- The value returned by `importSheetsAndSave`. -/
structure ImportResult where
  recruiters : List RecruiterRec
  candidates : List CandidateRec
  clients : List ClientRec
  performance : List PerfRec
deriving DecidableEq

/-- `if (rRes) { ... }`: route the recruiters tab by inferred type; the
final `else` (own kind, or no inference) parses as recruiters. -/
def applyRecruitersTab (s : ImportResult) (rRes : FetchOutcome) : ImportResult :=
  match rRes with
  | none => s
  | some r =>
    match inferType rRes with
    | some .candidates => { s with candidates := parseCandidates r }
    | some .clients => { s with clients := parseClients r }
    | some .performance => { s with performance := parsePerformance r }
    | _ => { s with recruiters := parseRecruiters r }

/-- `if (cRes) { ... }`: route the candidates tab by inferred type. -/
def applyCandidatesTab (s : ImportResult) (cRes : FetchOutcome) : ImportResult :=
  match cRes with
  | none => s
  | some c =>
    match inferType cRes with
    | some .recruiters => { s with recruiters := parseRecruiters c }
    | some .clients => { s with clients := parseClients c }
    | some .performance => { s with performance := parsePerformance c }
    | _ => { s with candidates := parseCandidates c }

/-- `if (clientsRes) { ... }`: route the clients tab by inferred type. -/
def applyClientsTab (s : ImportResult) (clRes : FetchOutcome) : ImportResult :=
  match clRes with
  | none => s
  | some cl =>
    match inferType clRes with
    | some .recruiters => { s with recruiters := parseRecruiters cl }
    | some .candidates => { s with candidates := parseCandidates cl }
    | some .performance => { s with performance := parsePerformance cl }
    | _ => { s with clients := parseClients cl }

/-- `if (perfRes) { ... }`: route the performance tab by inferred type. -/
def applyPerformanceTab (s : ImportResult) (perfRes : FetchOutcome) : ImportResult :=
  match perfRes with
  | none => s
  | some p =>
    match inferType perfRes with
    | some .recruiters => { s with recruiters := parseRecruiters p }
    | some .clients => { s with clients := parseClients p }
    | some .candidates => { s with candidates := parseCandidates p }
    | _ => { s with performance := parsePerformance p }

/-- The inference-and-parse phase of `importSheetsAndSave`: four guarded
blocks run in the fixed order recruiters tab, candidates tab, clients tab,
performance tab, each assigning (overwriting) the result variable of the
kind the tab routed to.  The surrounding `try` cannot throw in this total
model, so the catch fallback is dead code. -/
def importParse (rRes cRes clRes perfRes : FetchOutcome) : ImportResult :=
  applyPerformanceTab
    (applyClientsTab
      (applyCandidatesTab
        (applyRecruitersTab ⟨[], [], [], []⟩ rRes) cRes) clRes) perfRes

/-- The entity kind a tab's block assigns to: the inferred kind when
inference fired, the tab's own kind otherwise (for a present response);
an absent response assigns nothing. -/
def routedKind (ownKind : SheetKind) (resp : FetchOutcome) : Option SheetKind :=
  match resp with
  | none => none
  | some _ => some ((inferType resp).getD ownKind)

/-- The response of the last tab (in block order recruiters, candidates,
clients, performance) whose block assigns to kind `k`. -/
def lastRouted (k : SheetKind) (rRes cRes clRes perfRes : FetchOutcome) :
    FetchOutcome :=
  if routedKind .performance perfRes = some k then perfRes
  else if routedKind .clients clRes = some k then clRes
  else if routedKind .candidates cRes = some k then cRes
  else if routedKind .recruiters rRes = some k then rRes
  else none

/-- Contents of the document store, one collection per kind. -/
structure Store where
  recruiters : List RecruiterRec
  candidates : List CandidateRec
  clients : List ClientRec
  performance : List PerfRec
deriving DecidableEq

/-- The best-effort persistence block of `importSheetsAndSave`:
when the store is available, `deleteMany({})` on all four kinds, then
`insertMany` per kind guarded by `if (kind.length)`; a store failure is
caught and (modelled as failing before the first delete) leaves the store
unchanged. -/
def persistStore (parsed : ImportResult) (prev : Store) (storeOk : Bool) : Store :=
  if storeOk then
    let deleted : Store := ⟨[], [], [], []⟩
    let w1 := if parsed.recruiters.isEmpty then deleted
      else { deleted with recruiters := parsed.recruiters }
    let w2 := if parsed.candidates.isEmpty then w1
      else { w1 with candidates := parsed.candidates }
    let w3 := if parsed.clients.isEmpty then w2
      else { w2 with clients := parsed.clients }
    if parsed.performance.isEmpty then w3
    else { w3 with performance := parsed.performance }
  else prev

/-- `importSheetsAndSave` from sheetsService.ts, as a function of the four
settled fetch outcomes, the prior store contents and store availability:
parse with inference, best-effort persist, and return the in-memory
record sets regardless of persistence outcome. -/
def importSheetsAndSave (rRes cRes clRes perfRes : FetchOutcome)
    (prev : Store) (storeOk : Bool) : ImportResult × Store :=
  let parsed := importParse rRes cRes clRes perfRes
  (parsed, persistStore parsed prev storeOk)

/-- An opaque-to-the-core network or API failure token. -/
structure NetError where
  msg : String
deriving DecidableEq

/-- A service-account JWT client. -/
structure JWTAuth where
  email : String
  key : String
deriving DecidableEq

/-- `privateKey.replace(/\\n/g, '\n')` (the `includes` guard in the source
makes the replacement unconditional in effect). -/
def replaceEscapedNewlines : List Char → List Char
  | [] => []
  | '\\' :: 'n' :: rest => '\n' :: replaceEscapedNewlines rest
  | c :: rest => c :: replaceEscapedNewlines rest

/-- `getServiceAccountClient` from sheetsService.ts: `null` when either
env credential is absent (JS empty string is falsy) or when
`jwt.authorize()` throws (`authOk = false`); never raises. -/
def getServiceAccountClient (clientEmail privateKey : String)
    (authOk : Bool) : Option JWTAuth :=
  if clientEmail = "" ∨ privateKey = "" then none
  else
    let key := String.mk (replaceEscapedNewlines privateKey.toList)
    if authOk then some ⟨clientEmail, key⟩ else none

/-- `fetchSheetViaServiceAccount`: `null` when no client is available;
otherwise propagates the values API call, defaulting absent `values` to
`[]` (`res.data.values || []`). -/
def fetchSheetViaServiceAccount (auth : Option JWTAuth)
    (apiResult : Except NetError (Option (List (List String)))) :
    Except NetError (Option SheetResp) :=
  match auth with
  | none => .ok none
  | some _ => apiResult.map (fun v => some ⟨some (v.getD [])⟩)

/-- Errors observable from `fetchSheet`. -/
inductive FetchError
  | network (e : NetError)
  | config
deriving DecidableEq

/-- `fetchSheet` from sheetsService.ts: try the service account (errors
collapsed to `null` by `.catch(() => null)`); if the result is truthy with
truthy `values`, return it; otherwise fall back to the API key
(`apiKey || process.env.GOOGLE_SHEETS_API_KEY || ''`), raising the
configuration error when no key is available. -/
def fetchSheet (saAttempt : Except NetError (Option SheetResp))
    (apiKey envKey : String)
    (apiKeyFetch : Except NetError SheetResp) : Except FetchError SheetResp :=
  let sa : Option SheetResp := match saAttempt with
    | .ok v => v
    | .error _ => none
  match sa with
  | some ⟨some values⟩ => .ok ⟨some values⟩
  | _ =>
    let key := jsOr apiKey envKey
    if key = "" then .error .config
    else apiKeyFetch.mapError .network

/-- Whether the caught service-account attempt produced a usable response
(the `sa && sa.values` guard in `fetchSheet`; the values array is always
truthy when present, even empty). -/
def saHasData (saAttempt : Except NetError (Option SheetResp)) : Bool :=
  match saAttempt with
  | .ok (some ⟨some _⟩) => true
  | _ => false

/-- `const MAX_IMPORTS_PER_MINUTE = 20` from configService.ts. -/
def MAX_IMPORTS_PER_MINUTE : Nat := 20

/-- Observable per-key scheduler state: the rate-limit run history, the
persisted `lastRunAt`, counters for orchestrator invocations, logged
rate-limit skips and logged failed runs, and whether the recurring
interval timer is armed. -/
structure SchedState where
  hist : List Int
  lastRunAt : Option Int
  invocations : Nat
  skips : Nat
  errors : Nat
  timerActive : Bool
deriving DecidableEq

/-- One timer fire: the `run` closure inside `startJobForConfig`
(configService.ts).  Prune the history to the sliding 60-second window;
at or above the ceiling, log a warning and return (timer untouched);
otherwise record the timestamp, invoke `importSheetsAndSave`, and stamp
`lastRunAt` — the stamp lives inside the same `try`, so a run whose
orchestrator throws (`importOk = false`) logs the error and leaves
`lastRunAt` unchanged. -/
def startJobRun (now : Int) (importOk : Bool) (st : SchedState) : SchedState :=
  let windowStart := now - 60000
  let hist := st.hist.filter (fun t => windowStart ≤ t)
  if MAX_IMPORTS_PER_MINUTE ≤ hist.length then
    { st with hist := hist, skips := st.skips + 1 }
  else
    let st1 := { st with hist := hist ++ [now], invocations := st.invocations + 1 }
    if importOk then { st1 with lastRunAt := some now }
    else { st1 with errors := st1.errors + 1 }

/-- A sequence of timer fires, each a timestamp with its import outcome. -/
def runTicks (fires : List (Int × Bool)) (st : SchedState) : SchedState :=
  fires.foldl (fun s f => startJobRun f.1 f.2 s) st

/-- First pass of `parseCsvToObjects` (importPublishedAndSave,
sheetsService.ts): assemble logical lines, collapsing a doubled quote to
one quote, toggling the in-quotes flag on a lone quote (which is kept in
the buffer), dropping `\r`, and splitting on unquoted `\n`; a nonempty
trailing buffer becomes the last line. -/
def csvLinesGo : List Char → List Char → Bool → List (List Char)
  | [], cur, _ => if cur.isEmpty then [] else [cur]
  | '"' :: '"' :: rest, cur, inQ => csvLinesGo rest (cur ++ ['"']) inQ
  | '"' :: rest, cur, inQ => csvLinesGo rest (cur ++ ['"']) (!inQ)
  | '\r' :: rest, cur, inQ => csvLinesGo rest cur inQ
  | '\n' :: rest, cur, inQ =>
      if inQ then csvLinesGo rest (cur ++ ['\n']) inQ
      else cur :: csvLinesGo rest [] inQ
  | c :: rest, cur, inQ => csvLinesGo rest (cur ++ [c]) inQ

/-- Core of `splitCsv` inside `parseCsvToObjects`: split one line on
unquoted commas; a doubled quote inside quotes yields one quote, any
other quote toggles the in-quotes flag and is dropped. -/
def splitCsvGo : List Char → List Char → Bool → List (List Char)
  | [], field, _ => [field]
  | '"' :: '"' :: rest, field, true => splitCsvGo rest (field ++ ['"']) true
  | '"' :: rest, field, inside => splitCsvGo rest field (!inside)
  | ',' :: rest, field, inside =>
      if inside then splitCsvGo rest (field ++ [',']) inside
      else field :: splitCsvGo rest [] inside
  | c :: rest, field, inside => splitCsvGo rest (field ++ [c]) inside

/-- The post-processing `s.replace(/^"|"$/g, '')`: remove one leading and
one trailing quote if present. -/
def stripOuterQuotes (cs : List Char) : List Char :=
  let cs1 := if cs.head? = some '"' then cs.tail else cs
  if cs1.getLast? = some '"' then cs1.dropLast else cs1

/-- `splitCsv` from `parseCsvToObjects`:
`cols.map(s => s.replace(/^"|"$/g, '').trim())`. -/
def splitCsv (line : List Char) : List String :=
  (splitCsvGo line [] false).map (fun cs => trimStr (String.mk (stripOuterQuotes cs)))

/-- `for (j...) row[header[j]] = cols[j] !== undefined ? cols[j] : ''`. -/
def mkRowObj (header cols : List String) : List (String × String) :=
  (List.range header.length).map (fun j => (header.getD j "", cols.getD j ""))

/-- JS object read: the last assignment to a key wins; `none` models
`undefined`. -/
def jsObjGet (obj : List (String × String)) (k : String) : Option String :=
  (obj.reverse.find? (fun p => p.1 = k)).map (fun p => p.2)

/-- `parseCsvToObjects` from `importPublishedAndSave` (sheetsService.ts):
assemble lines, use the first as the header, skip blank data lines, and
build one object per remaining line. -/
def parseCsvToObjects (csv : String) : List (List (String × String)) :=
  match csvLinesGo csv.toList [] false with
  | [] => []
  | l0 :: rest =>
    let header := (splitCsv l0).map trimStr
    rest.filterMap (fun li =>
      if trimChars li = [] then none
      else some (mkRowObj header (splitCsv li)))

/-- Modelled from the spec: the `serializeAsCsv` test artifact of the
parser round-trip property is not part of the repository source, so it is
written here from the spec's words — RFC4180 quoting: a field containing
the delimiter, a quote, or a line break is wrapped in double quotes with
embedded quotes doubled. -/
def needsQuote (s : String) : Bool :=
  s.toList.any (fun c => c = ',' || c = '"' || c = '\n' || c = '\r')

/-- Modelled from the spec: double every quote inside a quoted field. -/
def escapeQuotes : List Char → List Char
  | [] => []
  | '"' :: rest => '"' :: '"' :: escapeQuotes rest
  | c :: rest => c :: escapeQuotes rest

/-- Modelled from the spec: RFC4180 rendering of one field. -/
def quoteField (s : String) : List Char :=
  if needsQuote s then '"' :: (escapeQuotes s.toList ++ ['"'])
  else s.toList

/-- Modelled from the spec: one CSV record, fields joined by commas. -/
def serializeLine : List String → List Char
  | [] => []
  | [f] => quoteField f
  | f :: rest => quoteField f ++ ',' :: serializeLine rest

/-- Modelled from the spec: `serializeAsCsv(H, R)` — the header record,
a newline, and the single data record. -/
def serializeAsCsv (header row : List String) : String :=
  String.mk (serializeLine header ++ '\n' :: serializeLine row)

/-- Little-endian decimal digits with explicit fuel (kernel-reducible). -/
def digitsRevFuel : Nat → Nat → List Nat
  | 0, _ => []
  | _ + 1, 0 => []
  | fuel + 1, n + 1 => ((n + 1) % 10) :: digitsRevFuel fuel ((n + 1) / 10)

/-- Little-endian decimal digits of a natural number. -/
def digitsRev (n : Nat) : List Nat := digitsRevFuel n n

/-- Greatest `e` with `p ^ e ∣ n`, for `2 ≤ p` and `n ≠ 0`, with fuel. -/
def maxPowFuel (p : Nat) : Nat → Nat → Nat
  | 0, _ => 0
  | fuel + 1, n => if 2 ≤ p ∧ n ≠ 0 ∧ n % p = 0 then maxPowFuel p fuel (n / p) + 1 else 0

/-- Greatest `e` with `p ^ e ∣ n` (0 when `p < 2` or `n = 0`). -/
def maxPow (p n : Nat) : Nat := maxPowFuel p n n

/-- ASCII character of one decimal digit. -/
def toDigitChar (d : Nat) : Char := Char.ofNat (48 + d)

/-- Most-significant-first decimal digit characters of a natural. -/
def digitsStr (n : Nat) : List Char := (digitsRev n).reverse.map toDigitChar

/-- Exponent suffix of the ECMAScript exponential notation: an explicit
sign followed by the decimal digits of the magnitude. -/
def expChars (m : Int) : List Char :=
  (if m < 0 then '-' else '+') :: digitsStr m.natAbs

/-- ECMAScript `Number::toString(10)` for a positive finite decimal value:
choose `s`, `k`, `n` with `q = s * 10 ^ (n - k)`, `10 ^ (k - 1) ≤ s < 10 ^ k`
and `s` not divisible by 10, then render per the five notation cases of
the specification (plain integer, inner decimal point, leading zeros,
and the two exponential forms). -/
def jsToStringPos (q : ℚ) : List Char :=
  let b := q.den
  let d := max (maxPow 2 b) (maxPow 5 b)
  let N := q.num.natAbs * 10 ^ d / b
  let t := maxPow 10 N
  let s := N / 10 ^ t
  let k := (digitsRev s).length
  let n : Int := (k : Int) + t - d
  if (k : Int) ≤ n ∧ n ≤ 21 then
    digitsStr s ++ List.replicate (n - k).toNat '0'
  else if 0 < n ∧ n ≤ 21 then
    (digitsStr s).take n.toNat ++ '.' :: (digitsStr s).drop n.toNat
  else if -6 < n ∧ n ≤ 0 then
    '0' :: '.' :: (List.replicate (-n).toNat '0' ++ digitsStr s)
  else if k = 1 then
    digitsStr s ++ 'e' :: expChars (n - 1)
  else
    (digitsStr s).take 1 ++ '.' :: (digitsStr s).drop 1 ++ 'e' :: expChars (n - 1)

/-- JS `(number).toString()` on the exact-decimal number model: `"0"` for
zero, a leading minus for negative values, else the positive rendering.
Faithful to IEEE behaviour whenever the value is exactly representable,
which holds at every input the theorems below evaluate it on. -/
def jsToString (q : ℚ) : String :=
  if q = 0 then "0"
  else if q < 0 then String.mk ('-' :: jsToStringPos (-q))
  else String.mk (jsToStringPos q)

/-! ## Helper lemmas -/

lemma applyRecruitersTab_spec (s : ImportResult) (x : SheetResp) :
    applyRecruitersTab s (some x) =
      { recruiters := if (inferType (some x)).getD .recruiters = .recruiters then
          parseRecruiters x else s.recruiters
        candidates := if (inferType (some x)).getD .recruiters = .candidates then
          parseCandidates x else s.candidates
        clients := if (inferType (some x)).getD .recruiters = .clients then
          parseClients x else s.clients
        performance := if (inferType (some x)).getD .recruiters = .performance then
          parsePerformance x else s.performance } := by
  rcases h : inferType (some x) with _ | k
  · simp [applyRecruitersTab, h]
  · cases k <;> simp [applyRecruitersTab, h]

lemma applyCandidatesTab_spec (s : ImportResult) (x : SheetResp) :
    applyCandidatesTab s (some x) =
      { recruiters := if (inferType (some x)).getD .candidates = .recruiters then
          parseRecruiters x else s.recruiters
        candidates := if (inferType (some x)).getD .candidates = .candidates then
          parseCandidates x else s.candidates
        clients := if (inferType (some x)).getD .candidates = .clients then
          parseClients x else s.clients
        performance := if (inferType (some x)).getD .candidates = .performance then
          parsePerformance x else s.performance } := by
  rcases h : inferType (some x) with _ | k
  · simp [applyCandidatesTab, h]
  · cases k <;> simp [applyCandidatesTab, h]

lemma applyClientsTab_spec (s : ImportResult) (x : SheetResp) :
    applyClientsTab s (some x) =
      { recruiters := if (inferType (some x)).getD .clients = .recruiters then
          parseRecruiters x else s.recruiters
        candidates := if (inferType (some x)).getD .clients = .candidates then
          parseCandidates x else s.candidates
        clients := if (inferType (some x)).getD .clients = .clients then
          parseClients x else s.clients
        performance := if (inferType (some x)).getD .clients = .performance then
          parsePerformance x else s.performance } := by
  rcases h : inferType (some x) with _ | k
  · simp [applyClientsTab, h]
  · cases k <;> simp [applyClientsTab, h]

lemma applyPerformanceTab_spec (s : ImportResult) (x : SheetResp) :
    applyPerformanceTab s (some x) =
      { recruiters := if (inferType (some x)).getD .performance = .recruiters then
          parseRecruiters x else s.recruiters
        candidates := if (inferType (some x)).getD .performance = .candidates then
          parseCandidates x else s.candidates
        clients := if (inferType (some x)).getD .performance = .clients then
          parseClients x else s.clients
        performance := if (inferType (some x)).getD .performance = .performance then
          parsePerformance x else s.performance } := by
  rcases h : inferType (some x) with _ | k
  · simp [applyPerformanceTab, h]
  · cases k <;> simp [applyPerformanceTab, h]

lemma persistStore_avail (parsed : ImportResult) (prev : Store) :
    persistStore parsed prev true =
      { recruiters := parsed.recruiters, candidates := parsed.candidates
        clients := parsed.clients, performance := parsed.performance } := by
  obtain ⟨rs, cs, cls, ps⟩ := parsed
  simp only [persistStore, if_true]
  split_ifs <;> simp_all [List.isEmpty_iff]

lemma applyRecruitersTab_absent (s : ImportResult) : applyRecruitersTab s none = s := rfl

lemma applyCandidatesTab_absent (s : ImportResult) : applyCandidatesTab s none = s := rfl

lemma applyClientsTab_absent (s : ImportResult) : applyClientsTab s none = s := rfl

lemma applyPerformanceTab_absent (s : ImportResult) : applyPerformanceTab s none = s := rfl

/-! ## Claims C1, C2, C3, C4, C8, C10 -/

/-- C1, counterexample.  The claim asserts that when exactly one tab (here
the recruiters tab, whose values hold only a header row, so zero records
parse) yields no records while the other three yield one record each, the
empty kind's store is left unchanged.  In fact `deleteMany` runs for all
four kinds unconditionally and only the insert is skipped, so the
recruiter store ends empty although it previously held one record. -/
theorem c1_empty_tab_counterexample :
    (importSheetsAndSave (some ⟨some [["name", "email"]]⟩)
        (some ⟨some [["position"], ["dev"]]⟩)
        (some ⟨some [["company"], ["Acme"]]⟩)
        (some ⟨some [["month"], ["Jan"]]⟩)
        { recruiters := [⟨"Old", "", "", "", "", 0, "", "", "", "", "", "active", "up", ""⟩],
          candidates := [], clients := [], performance := [] } true).2.recruiters = [] ∧
    (importParse (some ⟨some [["name", "email"]]⟩)
        (some ⟨some [["position"], ["dev"]]⟩)
        (some ⟨some [["company"], ["Acme"]]⟩)
        (some ⟨some [["month"], ["Jan"]]⟩)).recruiters = [] ∧
    (importParse (some ⟨some [["name", "email"]]⟩)
        (some ⟨some [["position"], ["dev"]]⟩)
        (some ⟨some [["company"], ["Acme"]]⟩)
        (some ⟨some [["month"], ["Jan"]]⟩)).candidates ≠ [] ∧
    (importParse (some ⟨some [["name", "email"]]⟩)
        (some ⟨some [["position"], ["dev"]]⟩)
        (some ⟨some [["company"], ["Acme"]]⟩)
        (some ⟨some [["month"], ["Jan"]]⟩)).clients ≠ [] ∧
    (importParse (some ⟨some [["name", "email"]]⟩)
        (some ⟨some [["position"], ["dev"]]⟩)
        (some ⟨some [["company"], ["Acme"]]⟩)
        (some ⟨some [["month"], ["Jan"]]⟩)).performance ≠ [] ∧
    [(⟨"Old", "", "", "", "", 0, "", "", "", "", "", "active", "up", ""⟩ : RecruiterRec)] ≠ [] := by
  decide

/-- C1, amended: with the store available, `importSheetsAndSave` always
ends with each kind's store holding exactly that kind's newly parsed
records — `deleteMany` runs for all four kinds unconditionally, so when
exactly one tab yields zero parsed records its kind's store is emptied
(not left unchanged), while the other three kinds are replaced with the
new records and no remnants of the previous set. -/
theorem c1_empty_tab_amended (rRes cRes clRes perfRes : FetchOutcome) (prev : Store) :
    (importSheetsAndSave rRes cRes clRes perfRes prev true).2 =
      { recruiters := (importParse rRes cRes clRes perfRes).recruiters
        candidates := (importParse rRes cRes clRes perfRes).candidates
        clients := (importParse rRes cRes clRes perfRes).clients
        performance := (importParse rRes cRes clRes perfRes).performance } :=
  persistStore_avail (importParse rRes cRes clRes perfRes) prev

/-- C2, counterexample.  The claim asserts that a timer fire passing the
rate-limit check stamps `lastRunAt` regardless of import success or
failure.  In the source the stamp is awaited after the import inside the
same `try`, so a throwing import jumps to `catch` and skips the stamp:
here a passing fire at time 100000 whose import throws leaves
`lastRunAt` at its prior value. -/
theorem c2_stamp_counterexample :
    ((([] : List Int).filter (fun t => (100000 : Int) - 60000 ≤ t)).length
        < MAX_IMPORTS_PER_MINUTE) ∧
    (startJobRun 100000 false
        ⟨[], some 5, 0, 0, 0, true⟩).invocations = 1 ∧
    (startJobRun 100000 false
        ⟨[], some 5, 0, 0, 0, true⟩).lastRunAt ≠ some 100000 := by
  decide

/-- C2, amended: a timer fire passing the rate-limit check records its
timestamp in the run history and invokes `importSheetsAndSave`; on
successful completion it stamps `lastRunAt` to the fire time, but when
the import raises, the error is logged and `lastRunAt` is left
unchanged (the run still counts in the rate-limit history). -/
theorem c2_stamp_amended (now : Int) (importOk : Bool) (st : SchedState)
    (hpass : ((st.hist.filter (fun t => now - 60000 ≤ t)).length
      < MAX_IMPORTS_PER_MINUTE)) :
    (startJobRun now importOk st).invocations = st.invocations + 1 ∧
    now ∈ (startJobRun now importOk st).hist ∧
    (importOk = true → (startJobRun now importOk st).lastRunAt = some now) ∧
    (importOk = false → (startJobRun now importOk st).lastRunAt = st.lastRunAt ∧
      (startJobRun now importOk st).errors = st.errors + 1) ∧
    (startJobRun now importOk st).timerActive = st.timerActive ∧
    (startJobRun now importOk st).skips = st.skips := by
  unfold startJobRun
  rw [if_neg (by omega)]
  cases importOk <;> simp

/-- C2, witness for the amended theorem at a concrete passing fire. -/
theorem c2_stamp_amended_witness :
    (0 : Int) ∈ (startJobRun 0 true ⟨[], none, 0, 0, 0, true⟩).hist ∧
    (startJobRun 0 true ⟨[], none, 0, 0, 0, true⟩).lastRunAt = some 0 := by
  have h := c2_stamp_amended 0 true ⟨[], none, 0, 0, 0, true⟩ (by decide)
  exact ⟨h.2.1, h.2.2.1 rfl⟩

lemma runTicks_spec (fires : List (Int × Bool)) (st : SchedState)
    (hwin : ∀ f ∈ fires, ∀ h ∈ st.hist, f.1 - 60000 ≤ h)
    (hspan : ∀ f ∈ fires, ∀ g ∈ fires, f.1 - 60000 ≤ g.1) :
    (runTicks fires st).invocations = st.invocations +
      min fires.length (MAX_IMPORTS_PER_MINUTE - st.hist.length) ∧
    (runTicks fires st).skips = st.skips +
      (fires.length - min fires.length (MAX_IMPORTS_PER_MINUTE - st.hist.length)) ∧
    (runTicks fires st).hist = st.hist ++
      (fires.take (MAX_IMPORTS_PER_MINUTE - st.hist.length)).map Prod.fst ∧
    (runTicks fires st).timerActive = st.timerActive := by
  induction fires generalizing st with
  | nil => simp [runTicks]
  | cons f rest ih =>
    have hfilter : st.hist.filter (fun t => decide (f.1 - 60000 ≤ t)) = st.hist :=
      List.filter_eq_self.mpr (fun h hh => by
        simpa using hwin f (by simp) h hh)
    have hstep : runTicks (f :: rest) st = runTicks rest (startJobRun f.1 f.2 st) := rfl
    rcases Nat.lt_or_ge st.hist.length MAX_IMPORTS_PER_MINUTE with hlt | hge
    · have hrun : (startJobRun f.1 f.2 st).hist = st.hist ++ [f.1] ∧
          (startJobRun f.1 f.2 st).invocations = st.invocations + 1 ∧
          (startJobRun f.1 f.2 st).skips = st.skips ∧
          (startJobRun f.1 f.2 st).timerActive = st.timerActive := by
        simp only [startJobRun]
        rw [hfilter, if_neg (by omega)]
        cases f.2 <;> simp
      obtain ⟨e1, e2, e3, e4⟩ := hrun
      obtain ⟨h1, h2, h3, h4⟩ := ih (startJobRun f.1 f.2 st)
        (by
          intro g hg h hh2
          rw [e1] at hh2
          rcases List.mem_append.mp hh2 with h3 | h3
          · exact hwin g (by simp [hg]) h h3
          · simp only [List.mem_singleton] at h3
            subst h3
            exact hspan g (by simp [hg]) f (by simp))
        (fun g hg g2 hg2 => hspan g (by simp [hg]) g2 (by simp [hg2]))
      have hlen1 : (startJobRun f.1 f.2 st).hist.length = st.hist.length + 1 := by
        rw [e1]; simp
      rw [hstep]
      refine ⟨?_, ?_, ?_, ?_⟩
      · rw [h1, e2, hlen1]; simp only [List.length_cons]; omega
      · rw [h2, e3, hlen1]; simp only [List.length_cons]; omega
      · rw [h3, e1]
        have hpos : MAX_IMPORTS_PER_MINUTE - (st.hist ++ [f.1]).length + 1 =
            MAX_IMPORTS_PER_MINUTE - st.hist.length := by
          simp only [List.length_append, List.length_singleton]
          omega
        rw [← hpos, List.take_succ_cons, List.map_cons, List.append_assoc,
          List.singleton_append]
      · rw [h4, e4]
    · have hrun : startJobRun f.1 f.2 st = { st with skips := st.skips + 1 } := by
        simp only [startJobRun]
        rw [hfilter, if_pos hge]
      obtain ⟨h1, h2, h3, h4⟩ := ih { st with skips := st.skips + 1 }
        (fun g hg h hh => hwin g (by simp [hg]) h hh)
        (fun g hg g2 hg2 => hspan g (by simp [hg]) g2 (by simp [hg2]))
      have hz : MAX_IMPORTS_PER_MINUTE - st.hist.length = 0 := by omega
      rw [hstep, hrun]
      refine ⟨?_, ?_, ?_, ?_⟩
      · rw [h1]; simp [hz]
      · rw [h2]; simp only [hz, Nat.min_zero, Nat.sub_zero, List.length_cons]; omega
      · rw [h3]; simp [hz]
      · rw [h4]

/-- C3: 25 timer fires for one key inside a single sliding 60-second
window, against the ceiling of 20, produce exactly 20 orchestrator
invocations — each recording its timestamp in the run history — and 5
logged skips, and the recurring timer stays armed. -/
theorem c3_rate_limiter (fires : List (Int × Bool)) (st : SchedState)
    (hlen : fires.length = 25)
    (hspan : ∀ f ∈ fires, ∀ g ∈ fires, f.1 - 60000 ≤ g.1)
    (hfresh : st.hist = []) (hinv : st.invocations = 0) (hskips : st.skips = 0)
    (htimer : st.timerActive = true) :
    (runTicks fires st).invocations = 20 ∧
    (runTicks fires st).skips = 5 ∧
    (runTicks fires st).hist = (fires.take 20).map Prod.fst ∧
    (runTicks fires st).timerActive = true := by
  have h := runTicks_spec fires st (by simp [hfresh]) hspan
  rw [hfresh, hinv, hskips, htimer] at h
  simpa [MAX_IMPORTS_PER_MINUTE, hlen] using h

/-- C3, witness: 25 immediate fires at time 0. -/
theorem c3_rate_limiter_witness :
    (runTicks (List.replicate 25 ((0 : Int), true)) ⟨[], none, 0, 0, 0, true⟩).invocations = 20 ∧
    (runTicks (List.replicate 25 ((0 : Int), true)) ⟨[], none, 0, 0, 0, true⟩).skips = 5 := by
  have h := c3_rate_limiter (List.replicate 25 ((0 : Int), true)) ⟨[], none, 0, 0, 0, true⟩
    (by decide) (by decide) rfl rfl rfl rfl
  exact ⟨h.1, h.2.1⟩

/-- C4: when all four fetches settle successfully and the persistence
step throws (store unavailable), `importSheetsAndSave` still returns the
freshly parsed in-memory record sets — the same value it returns with a
healthy store — and the store is left as it was. -/
theorem c4_returns_parsed_on_store_failure (rRes cRes clRes perfRes : FetchOutcome)
    (prev : Store) (_hr : rRes.isSome) (_hc : cRes.isSome)
    (_hcl : clRes.isSome) (_hp : perfRes.isSome) :
    (importSheetsAndSave rRes cRes clRes perfRes prev false).1 =
      importParse rRes cRes clRes perfRes ∧
    (importSheetsAndSave rRes cRes clRes perfRes prev false).1 =
      (importSheetsAndSave rRes cRes clRes perfRes prev true).1 ∧
    (importSheetsAndSave rRes cRes clRes perfRes prev false).2 = prev := by
  exact ⟨rfl, rfl, rfl⟩

/-- C4, witness at four concrete fulfilled tabs and a store failure. -/
theorem c4_returns_parsed_on_store_failure_witness :
    (importSheetsAndSave (some ⟨some [["hired"], ["3"]]⟩)
      (some ⟨some [["position"], ["dev"]]⟩)
      (some ⟨some [["company"], ["Acme"]]⟩)
      (some ⟨some [["month"], ["Jan"]]⟩)
      ⟨[], [], [], []⟩ false).1 =
      importParse (some ⟨some [["hired"], ["3"]]⟩)
        (some ⟨some [["position"], ["dev"]]⟩)
        (some ⟨some [["company"], ["Acme"]]⟩)
        (some ⟨some [["month"], ["Jan"]]⟩) := by
  exact (c4_returns_parsed_on_store_failure _ _ _ _ _
    (by decide) (by decide) (by decide) (by decide)).1

/-- C8, counterexample.  With header `["Name","Email","Hired","Status"]`
and row `["Jane","jane@x.com","7","active"]`, the remaining fields are not
at hard defaults: the claimed record (with `phone` and `department` empty)
is not what the mapper yields, because the positional fallback fills
`phone` from column 2 and `department` from column 3. -/
theorem c8_recruiter_scenario_counterexample :
    parseRecruiters ⟨some [["Name", "Email", "Hired", "Status"],
        ["Jane", "jane@x.com", "7", "active"]]⟩ ≠
      [{ name := "Jane", email := "jane@x.com", phone := "", department := "",
         territory := "", hired := 7, joinDate := "", reportingManager := "",
         remarks := "", backendCallingsRemarks := "", recruiterBackendCallings := "",
         status := "active", trend := "up", location := "" }] := by
  decide

/-- C8, amended: the scenario yields name, email, hired and status as
claimed and `trend` at its default `"up"`, but the alias misses fall back
to the legacy positional columns before the hard default, so `phone`
becomes `"7"` (column 2) and `department` becomes `"active"` (column 3);
the fields whose positional column is past the row's end are at their
hard defaults. -/
theorem c8_recruiter_scenario_amended :
    parseRecruiters ⟨some [["Name", "Email", "Hired", "Status"],
        ["Jane", "jane@x.com", "7", "active"]]⟩ =
      [{ name := "Jane", email := "jane@x.com", phone := "7", department := "active",
         territory := "", hired := 7, joinDate := "", reportingManager := "",
         remarks := "", backendCallingsRemarks := "", recruiterBackendCallings := "",
         status := "active", trend := "up", location := "" }] := by
  decide

set_option maxHeartbeats 2000000 in
/-- C10: each entity kind's returned list is exactly the parse of the
last tab — in the fixed block order recruiters, candidates, clients,
performance — whose block routed to that kind, and the empty list when no
tab routed to it.  In particular, when two tabs route to the same kind
the later-processed tab's rows replace the earlier tab's rows (overwrite,
not append), and with an available store the persisted contents coincide
with the returned lists. -/
theorem c10_duplicate_kind_overwrite (rRes cRes clRes perfRes : FetchOutcome) (prev : Store) :
    ((importParse rRes cRes clRes perfRes).recruiters =
        (lastRouted .recruiters rRes cRes clRes perfRes).elim [] parseRecruiters ∧
      (importParse rRes cRes clRes perfRes).candidates =
        (lastRouted .candidates rRes cRes clRes perfRes).elim [] parseCandidates ∧
      (importParse rRes cRes clRes perfRes).clients =
        (lastRouted .clients rRes cRes clRes perfRes).elim [] parseClients ∧
      (importParse rRes cRes clRes perfRes).performance =
        (lastRouted .performance rRes cRes clRes perfRes).elim [] parsePerformance) ∧
    (importSheetsAndSave rRes cRes clRes perfRes prev true).2.recruiters =
        (importParse rRes cRes clRes perfRes).recruiters ∧
    (importSheetsAndSave rRes cRes clRes perfRes prev true).2.candidates =
        (importParse rRes cRes clRes perfRes).candidates ∧
    (importSheetsAndSave rRes cRes clRes perfRes prev true).2.clients =
        (importParse rRes cRes clRes perfRes).clients ∧
    (importSheetsAndSave rRes cRes clRes perfRes prev true).2.performance =
        (importParse rRes cRes clRes perfRes).performance := by
  constructor
  · rcases rRes with _ | r <;> rcases cRes with _ | c <;>
      rcases clRes with _ | cl <;> rcases perfRes with _ | p <;>
      refine ⟨?_, ?_, ?_, ?_⟩ <;>
      simp only [importParse, applyRecruitersTab_spec, applyCandidatesTab_spec,
        applyClientsTab_spec, applyPerformanceTab_spec, applyRecruitersTab_absent,
        applyCandidatesTab_absent, applyClientsTab_absent, applyPerformanceTab_absent,
        lastRouted, routedKind, Option.some.injEq] <;>
      split_ifs <;> simp_all
  · have h : (importSheetsAndSave rRes cRes clRes perfRes prev true).2 =
        persistStore (importParse rRes cRes clRes perfRes) prev true := rfl
    rw [h, persistStore_avail]
    exact ⟨rfl, rfl, rfl, rfl⟩

/-! ## Claims C5 and C9 -/

/-- C5, counterexample.  The claim asserts the four keyword sets are
disjoint; in fact `"hired"` belongs to both the recruiter and the
performance keyword sets, so a header containing `"hired"` matches two
sets (resolving to the earlier-checked recruiters kind). -/
theorem c5_inference_counterexample :
    "hired" ∈ recruiterKeywords ∧ "hired" ∈ performanceKeywords ∧
    hasAnyKeyword recruiterKeywords ["hired"] = true ∧
    hasAnyKeyword performanceKeywords ["hired"] = true ∧
    inferType (some ⟨some [["hired"]]⟩) = some .recruiters := by
  decide

/-- C5, amended: `inferType` evaluates the four keyword sets against the
lower-cased header in the fixed priority order candidates, clients,
recruiters, performance, returning the first kind with any match and
`none` when none match; the keyword sets are pairwise disjoint except
that the recruiter and performance sets share exactly the keyword
`"hired"`; in particular a header containing both `"industry"` and
`"target"` yields the clients kind, not the lower-priority match. -/
theorem c5_inference_amended (hdr : List String) (rest : List (List String)) :
    (hasAnyKeyword candidateKeywords (headerLower hdr) = true →
      inferType (some ⟨some (hdr :: rest)⟩) = some .candidates) ∧
    (hasAnyKeyword candidateKeywords (headerLower hdr) = false →
      hasAnyKeyword clientKeywords (headerLower hdr) = true →
      inferType (some ⟨some (hdr :: rest)⟩) = some .clients) ∧
    (hasAnyKeyword candidateKeywords (headerLower hdr) = false →
      hasAnyKeyword clientKeywords (headerLower hdr) = false →
      hasAnyKeyword recruiterKeywords (headerLower hdr) = true →
      inferType (some ⟨some (hdr :: rest)⟩) = some .recruiters) ∧
    (hasAnyKeyword candidateKeywords (headerLower hdr) = false →
      hasAnyKeyword clientKeywords (headerLower hdr) = false →
      hasAnyKeyword recruiterKeywords (headerLower hdr) = false →
      hasAnyKeyword performanceKeywords (headerLower hdr) = true →
      inferType (some ⟨some (hdr :: rest)⟩) = some .performance) ∧
    (hasAnyKeyword candidateKeywords (headerLower hdr) = false →
      hasAnyKeyword clientKeywords (headerLower hdr) = false →
      hasAnyKeyword recruiterKeywords (headerLower hdr) = false →
      hasAnyKeyword performanceKeywords (headerLower hdr) = false →
      inferType (some ⟨some (hdr :: rest)⟩) = none) ∧
    (∀ k ∈ candidateKeywords, k ∉ clientKeywords ∧ k ∉ recruiterKeywords ∧
      k ∉ performanceKeywords) ∧
    (∀ k ∈ clientKeywords, k ∉ recruiterKeywords ∧ k ∉ performanceKeywords) ∧
    (∀ k ∈ recruiterKeywords, k ∈ performanceKeywords → k = "hired") ∧
    inferType (some ⟨some [["industry", "target"]]⟩) = some .clients := by
  refine ⟨?_, ?_, ?_, ?_, ?_, by decide, by decide, by decide, by decide⟩ <;>
    intros <;> simp_all [inferType]

/-- C5, witness for the amended theorem: a header whose only keyword hit
is the client set resolves to clients. -/
theorem c5_inference_amended_witness :
    inferType (some ⟨some [["industry"]]⟩) = some .clients :=
  (c5_inference_amended ["industry"] []).2.1 (by decide) (by decide)

/-- C9: `fetchSheet` raises the configuration error exactly when the
caught service-account attempt produced no usable response and no API key
is available per call or from the environment; and the credentialed
strategy returns the unavailable result (`null`) rather than raising when
credentials are absent or the credential exchange fails, an outcome
distinct from every network error. -/
theorem c9_fetch_fallback (saAttempt : Except NetError (Option SheetResp))
    (apiKey envKey : String) (apiKeyFetch : Except NetError SheetResp)
    (clientEmail privateKey : String) (authOk : Bool)
    (apiResult : Except NetError (Option (List (List String)))) (e : NetError) :
    (fetchSheet saAttempt apiKey envKey apiKeyFetch = .error .config ↔
      saHasData saAttempt = false ∧ apiKey = "" ∧ envKey = "") ∧
    ((clientEmail = "" ∨ privateKey = "" ∨ authOk = false) →
      fetchSheetViaServiceAccount
        (getServiceAccountClient clientEmail privateKey authOk) apiResult = .ok none) ∧
    ((Except.ok none : Except NetError (Option SheetResp)) ≠ .error e) := by
  refine ⟨?_, ?_, by simp⟩
  · have fallback : ∀ res : Except FetchError SheetResp,
        res = (if jsOr apiKey envKey = "" then .error .config
          else apiKeyFetch.mapError .network) →
        (res = .error .config ↔ apiKey = "" ∧ envKey = "") := by
      intro res hres
      subst hres
      by_cases hk : apiKey = "" <;> by_cases he : envKey = "" <;>
        rcases apiKeyFetch with r | ne <;>
        simp_all [jsOr, Except.mapError]
    rcases saAttempt with err | v
    · simpa [fetchSheet, saHasData] using fallback _ rfl
    · rcases v with _ | r
      · simpa [fetchSheet, saHasData] using fallback _ rfl
      · rcases r with ⟨_ | values⟩
        · simpa [fetchSheet, saHasData] using fallback _ rfl
        · simp [fetchSheet, saHasData]
  · intro h
    rcases h with h | h | h <;>
      by_cases hcred : clientEmail = "" ∨ privateKey = "" <;>
      simp_all [getServiceAccountClient, fetchSheetViaServiceAccount]

/-- C9, witness: no credentials anywhere and no key raises the
configuration error, while an absent-credential service-account attempt
yields the unavailable result. -/
theorem c9_fetch_fallback_witness :
    fetchSheet (.ok none) "" "" (.error ⟨"down"⟩) = .error .config ∧
    fetchSheetViaServiceAccount (getServiceAccountClient "" "key" true)
      (.ok (some [])) = .ok none := by
  have h := c9_fetch_fallback (.ok none) "" "" (.error ⟨"down"⟩) "" "key" true
    (.ok (some [])) ⟨"x"⟩
  exact ⟨h.1.mpr ⟨rfl, rfl, rfl⟩, h.2.1 (Or.inl rfl)⟩

/-! ## Claim C6: CSV parser round-trip -/

lemma csvLinesGo_step (c : Char) (rest cur : List Char) (inQ : Bool)
    (hq : c ≠ '"') (hr : c ≠ '\r') (hn : c ≠ '\n') :
    csvLinesGo (c :: rest) cur inQ = csvLinesGo rest (cur ++ [c]) inQ := by
  rw [csvLinesGo.eq_def]
  split
  all_goals try rfl
  all_goals simp_all

lemma csvLinesGo_newline (rest cur : List Char) :
    csvLinesGo ('\n' :: rest) cur false = cur :: csvLinesGo rest [] false := rfl

lemma csvLinesGo_newline_inq (rest cur : List Char) :
    csvLinesGo ('\n' :: rest) cur true = csvLinesGo rest (cur ++ ['\n']) true := rfl

lemma csvLinesGo_quote_lone (rest cur : List Char) (inQ : Bool)
    (h : ∀ r2 : List Char, rest ≠ '"' :: r2) :
    csvLinesGo ('"' :: rest) cur inQ = csvLinesGo rest (cur ++ ['"']) (!inQ) := by
  rw [csvLinesGo.eq_def]
  split
  all_goals try rfl
  all_goals try simp_all
  all_goals (rename_i heq; obtain ⟨h1, h2⟩ := heq; subst_vars; exact absurd rfl ‹¬_›)

lemma csvLinesGo_nil (cur : List Char) (inQ : Bool) :
    csvLinesGo [] cur inQ = if cur.isEmpty then [] else [cur] := rfl

lemma splitCsvGo_step (c : Char) (rest field : List Char) (inside : Bool)
    (hq : c ≠ '"') (hc : c ≠ ',') :
    splitCsvGo (c :: rest) field inside = splitCsvGo rest (field ++ [c]) inside := by
  rw [splitCsvGo.eq_def]
  split
  all_goals try rfl
  all_goals try simp_all
  all_goals (rename_i heq; obtain ⟨h1, h2⟩ := heq; subst_vars; exact absurd rfl ‹¬_›)

lemma splitCsvGo_comma_out (rest field : List Char) :
    splitCsvGo (',' :: rest) field false = field :: splitCsvGo rest [] false := rfl

lemma splitCsvGo_quote_out (rest field : List Char) :
    splitCsvGo ('"' :: rest) field false = splitCsvGo rest field true := by
  rw [splitCsvGo.eq_def]
  split
  all_goals try rfl
  all_goals try simp_all
  all_goals (rename_i heq; obtain ⟨h1, h2⟩ := heq; subst_vars; exact absurd rfl ‹¬_›)

lemma splitCsvGo_quote_in_lone (rest field : List Char)
    (h : ∀ r2 : List Char, rest ≠ '"' :: r2) :
    splitCsvGo ('"' :: rest) field true = splitCsvGo rest field false := by
  rw [splitCsvGo.eq_def]
  split
  all_goals try rfl
  all_goals try simp_all
  all_goals (rename_i heq; obtain ⟨h1, h2⟩ := heq; subst_vars; exact absurd rfl ‹¬_›)

lemma splitCsvGo_nil (field : List Char) (inside : Bool) :
    splitCsvGo [] field inside = [field] := rfl

lemma csvLinesGo_passage_inq (cs rest cur : List Char)
    (h : ∀ c ∈ cs, c ≠ '"' ∧ c ≠ '\r') :
    csvLinesGo (cs ++ rest) cur true = csvLinesGo rest (cur ++ cs) true := by
  induction cs generalizing cur with
  | nil => simp
  | cons c cs ih =>
    obtain ⟨hq, hr⟩ := h c (by simp)
    by_cases hn : c = '\n'
    · subst hn
      rw [List.cons_append, csvLinesGo_newline_inq,
        ih (cur ++ ['\n']) (fun d hd => h d (by simp [hd]))]
      simp
    · rw [List.cons_append, csvLinesGo_step c _ _ _ hq hr hn,
        ih (cur ++ [c]) (fun d hd => h d (by simp [hd]))]
      simp

lemma csvLinesGo_passage_out (cs rest cur : List Char)
    (h : ∀ c ∈ cs, c ≠ '"' ∧ c ≠ '\n' ∧ c ≠ '\r') :
    csvLinesGo (cs ++ rest) cur false = csvLinesGo rest (cur ++ cs) false := by
  induction cs generalizing cur with
  | nil => simp
  | cons c cs ih =>
    obtain ⟨hq, hn, hr⟩ := h c (by simp)
    rw [List.cons_append, csvLinesGo_step c _ _ _ hq hr hn,
      ih (cur ++ [c]) (fun d hd => h d (by simp [hd]))]
    simp

lemma needsQuote_false_chars (f : String) (hq : needsQuote f = false) :
    ∀ c ∈ f.toList, c ≠ ',' ∧ c ≠ '"' ∧ c ≠ '\n' ∧ c ≠ '\r' := by
  intro c hc
  simp only [needsQuote, List.any_eq_false, Bool.or_eq_false_iff,
    decide_eq_false_iff_not] at hq
  have h2 := hq c hc
  simp only [Bool.or_eq_true, decide_eq_true_eq, not_or] at h2
  tauto


lemma escapeQuotes_id (cs : List Char) (h : ∀ c ∈ cs, c ≠ '"') :
    escapeQuotes cs = cs := by
  induction cs with
  | nil => rfl
  | cons c rest ih =>
    have hq := h c (by simp)
    rw [escapeQuotes.eq_def]
    split
    all_goals simp_all

lemma csvLinesGo_field (f : String) (rest cur : List Char)
    (hf : ∀ c ∈ f.toList, c ≠ '"' ∧ c ≠ '\r')
    (hrest : ∀ r2 : List Char, rest ≠ '"' :: r2) :
    csvLinesGo (quoteField f ++ rest) cur false =
      csvLinesGo rest (cur ++ quoteField f) false := by
  by_cases hq : needsQuote f = true
  · have hesc : escapeQuotes f.toList = f.toList :=
      escapeQuotes_id _ (fun c hc => (hf c hc).1)
    have hne : f.toList ≠ [] := by
      intro h0
      unfold needsQuote at hq
      rw [h0] at hq
      simp at hq
    obtain ⟨c0, cs0, hcs⟩ := List.exists_cons_of_ne_nil hne
    have hc0 : c0 ≠ '"' := (hf c0 (by rw [hcs]; simp)).1
    unfold quoteField
    rw [if_pos hq, hesc, hcs, List.cons_append]
    rw [csvLinesGo_quote_lone _ _ _ (by
      intro r2 h2
      rw [List.cons_append] at h2
      exact hc0 (List.head_eq_of_cons_eq h2))]
    simp only [Bool.not_false]
    rw [List.append_assoc]
    rw [csvLinesGo_passage_inq (c0 :: cs0) _ _ (by rw [← hcs]; exact hf)]
    rw [List.singleton_append, csvLinesGo_quote_lone _ _ _ hrest]
    simp [List.append_assoc]
  · unfold quoteField
    rw [if_neg hq]
    have hch := needsQuote_false_chars f (by simpa using hq)
    exact csvLinesGo_passage_out f.toList rest cur
      (fun c hc => ⟨(hch c hc).2.1, (hch c hc).2.2.1, (hch c hc).2.2.2⟩)

lemma csvLinesGo_line (fields : List String) (rest cur : List Char)
    (hf : ∀ f ∈ fields, ∀ c ∈ f.toList, c ≠ '"' ∧ c ≠ '\r')
    (hrest : ∀ r2 : List Char, rest ≠ '"' :: r2) :
    csvLinesGo (serializeLine fields ++ rest) cur false =
      csvLinesGo rest (cur ++ serializeLine fields) false := by
  induction fields generalizing cur with
  | nil => simp [serializeLine]
  | cons f tl ih =>
    cases tl with
    | nil => exact csvLinesGo_field f rest cur (hf f (by simp)) hrest
    | cons g tl2 =>
      rw [show serializeLine (f :: g :: tl2) =
        quoteField f ++ ',' :: serializeLine (g :: tl2) from rfl]
      rw [List.append_assoc]
      rw [csvLinesGo_field f _ cur (hf f (by simp)) (by
        intro r2 h2
        rw [List.cons_append] at h2
        exact absurd (List.head_eq_of_cons_eq h2) (by decide))]
      rw [List.cons_append, csvLinesGo_step ',' _ _ _ (by decide) (by decide) (by decide)]
      rw [ih ((cur ++ quoteField f) ++ [',']) (fun f' hf' => hf f' (List.mem_cons_of_mem f hf'))]
      simp [List.append_assoc]

lemma csvLines_serialize (H R : List String)
    (hH : ∀ f ∈ H, ∀ c ∈ f.toList, c ≠ '"' ∧ c ≠ '\r')
    (hR : ∀ f ∈ R, ∀ c ∈ f.toList, c ≠ '"' ∧ c ≠ '\r')
    (hRne : serializeLine R ≠ []) :
    csvLinesGo (serializeLine H ++ '\n' :: serializeLine R) [] false =
      [serializeLine H, serializeLine R] := by
  rw [csvLinesGo_line H _ [] hH (by
    intro r2 h2
    exact absurd (List.head_eq_of_cons_eq h2) (by decide))]
  rw [List.nil_append, csvLinesGo_newline]
  have h2 := csvLinesGo_line R [] [] hR (by intro r2 h2; simp at h2)
  rw [List.append_nil, List.nil_append] at h2
  rw [h2, csvLinesGo_nil, if_neg (by simp only [List.isEmpty_iff]; exact hRne)]

lemma splitCsvGo_comma_in (rest field : List Char) :
    splitCsvGo (',' :: rest) field true = splitCsvGo rest (field ++ [',']) true := rfl

lemma splitCsvGo_passage_in (cs rest field : List Char)
    (h : ∀ c ∈ cs, c ≠ '"') :
    splitCsvGo (cs ++ rest) field true = splitCsvGo rest (field ++ cs) true := by
  induction cs generalizing field with
  | nil => simp
  | cons c cs ih =>
    have hq := h c (by simp)
    by_cases hc : c = ','
    · subst hc
      rw [List.cons_append, splitCsvGo_comma_in,
        ih (field ++ [',']) (fun d hd => h d (by simp [hd]))]
      simp
    · rw [List.cons_append, splitCsvGo_step c _ _ _ hq hc,
        ih (field ++ [c]) (fun d hd => h d (by simp [hd]))]
      simp

lemma splitCsvGo_passage_out (cs rest field : List Char)
    (h : ∀ c ∈ cs, c ≠ '"' ∧ c ≠ ',') :
    splitCsvGo (cs ++ rest) field false = splitCsvGo rest (field ++ cs) false := by
  induction cs generalizing field with
  | nil => simp
  | cons c cs ih =>
    obtain ⟨hq, hc⟩ := h c (by simp)
    rw [List.cons_append, splitCsvGo_step c _ _ _ hq hc,
      ih (field ++ [c]) (fun d hd => h d (by simp [hd]))]
    simp

lemma splitCsvGo_field (f : String) (rest field : List Char)
    (hf : ∀ c ∈ f.toList, c ≠ '"')
    (hrest : ∀ r2 : List Char, rest ≠ '"' :: r2) :
    splitCsvGo (quoteField f ++ rest) field false =
      splitCsvGo rest (field ++ f.toList) false := by
  by_cases hq : needsQuote f = true
  · unfold quoteField
    rw [if_pos hq, escapeQuotes_id _ hf, List.cons_append, splitCsvGo_quote_out,
      List.append_assoc, splitCsvGo_passage_in f.toList _ _ hf,
      List.singleton_append, splitCsvGo_quote_in_lone _ _ hrest]
  · unfold quoteField
    rw [if_neg hq]
    have hch := needsQuote_false_chars f (by simpa using hq)
    exact splitCsvGo_passage_out f.toList rest field
      (fun c hc => ⟨(hch c hc).2.1, (hch c hc).1⟩)

lemma splitCsvGo_line (f : String) (tl : List String) (field : List Char)
    (hf : ∀ g ∈ f :: tl, ∀ c ∈ g.toList, c ≠ '"') :
    splitCsvGo (serializeLine (f :: tl)) field false =
      (field ++ f.toList) :: tl.map String.toList := by
  induction tl generalizing f field with
  | nil =>
    rw [show serializeLine [f] = quoteField f from rfl]
    have h2 := splitCsvGo_field f [] field (hf f (by simp)) (by intro r2 h2; simp at h2)
    rw [List.append_nil] at h2
    rw [h2, splitCsvGo_nil]
    rfl
  | cons g tl2 ih =>
    rw [show serializeLine (f :: g :: tl2) =
      quoteField f ++ ',' :: serializeLine (g :: tl2) from rfl]
    rw [splitCsvGo_field f _ field (hf f (by simp)) (by
      intro r2 h2
      exact absurd (List.head_eq_of_cons_eq h2) (by decide))]
    rw [splitCsvGo_comma_out]
    rw [ih g [] (fun g' hg' => hf g' (List.mem_cons_of_mem f hg'))]
    simp

lemma stringMk_toList (s : String) : String.mk s.toList = s := by
  cases s
  rfl

lemma stripOuterQuotes_id (cs : List Char) (h : ∀ c ∈ cs, c ≠ '"') :
    stripOuterQuotes cs = cs := by
  have h1 : ¬ cs.head? = some '"' := by
    cases cs with
    | nil => simp
    | cons c rest => simpa using h c (by simp)
  have h2 : ¬ cs.getLast? = some '"' := by
    intro hl
    exact h '"' (List.mem_of_mem_getLast? hl) rfl
  simp only [stripOuterQuotes, if_neg h1, if_neg h2]

lemma trimStr_toList (r : String) (h : trimStr r = r) :
    trimChars r.toList = r.toList := by
  have := congrArg String.toList h
  simpa [trimStr] using this

lemma splitCsv_serialize (f : String) (tl : List String)
    (hf : ∀ g ∈ f :: tl, (∀ c ∈ g.toList, c ≠ '"') ∧ trimStr g = g) :
    splitCsv (serializeLine (f :: tl)) = f :: tl := by
  unfold splitCsv
  rw [splitCsvGo_line f tl [] (fun g hg => (hf g hg).1)]
  rw [List.nil_append]
  rw [show ((f.toList :: tl.map String.toList).map
    (fun cs => trimStr (String.mk (stripOuterQuotes cs)))) =
    (f :: tl).map (fun g => trimStr (String.mk (stripOuterQuotes g.toList))) from by
      simp [List.map_map]]
  have hone : ∀ g ∈ f :: tl, trimStr (String.mk (stripOuterQuotes g.toList)) = g := by
    intro g hg
    rw [stripOuterQuotes_id _ (hf g hg).1, stringMk_toList]
    exact (hf g hg).2
  calc (f :: tl).map (fun g => trimStr (String.mk (stripOuterQuotes g.toList)))
      = (f :: tl).map id := List.map_congr_left hone
    _ = f :: tl := List.map_id _


lemma mkRowObj_eq_zip (H R : List String) (hlen : R.length = H.length) :
    mkRowObj H R = H.zip R := by
  apply List.ext_getElem
  · simp [mkRowObj, List.length_zip, hlen]
  · intro i h1 h2
    simp only [mkRowObj] at h1 ⊢
    rw [List.getElem_map]
    rw [List.getElem_range]
    rw [List.getElem_zip]
    have hiH : i < H.length := by simpa using h1
    have hiR : i < R.length := by omega
    rw [List.getD_eq_getElem H "" hiH, List.getD_eq_getElem R "" hiR]

lemma find?_eq_unique (l : List (String × String)) (k : String) (v : String)
    (hnd : (l.map Prod.fst).Nodup) (hmem : (k, v) ∈ l) :
    l.find? (fun p => p.1 = k) = some (k, v) := by
  induction l with
  | nil => simp at hmem
  | cons p tl ih =>
    rw [List.map_cons] at hnd
    obtain ⟨hhead, htail⟩ := List.nodup_cons.mp hnd
    by_cases hp : p.1 = k
    · rw [List.find?_cons_of_pos _ (by simp [hp])]
      rcases List.mem_cons.mp hmem with h1 | h1
      · rw [h1]
      · exfalso
        have hk : k ∈ tl.map Prod.fst := List.mem_map.mpr ⟨(k, v), h1, rfl⟩
        rw [hp] at hhead
        exact hhead hk
    · rw [List.find?_cons_of_neg _ (by simp [hp])]
      apply ih htail
      rcases List.mem_cons.mp hmem with h1 | h1
      · exact absurd (congrArg Prod.fst h1).symm hp
      · exact h1

lemma jsObjGet_zip (H R : List String) (hnd : H.Nodup) (hlen : R.length = H.length)
    (i : Nat) (hi : i < H.length) :
    jsObjGet (H.zip R) (H.get ⟨i, hi⟩) = some (R.get ⟨i, by omega⟩) := by
  unfold jsObjGet
  simp only [List.get_eq_getElem]
  have hiz : i < (H.zip R).length := by
    rw [List.length_zip]
    omega
  have hiR : i < R.length := by omega
  have hmem : ((H[i], R[i]) : String × String) ∈ (H.zip R).reverse := by
    rw [List.mem_reverse, ← List.getElem_zip]
    exact List.getElem_mem hiz
  have hndz : ((H.zip R).reverse.map Prod.fst).Nodup := by
    rw [List.map_reverse, List.map_fst_zip H R (by omega)]
    exact List.nodup_reverse.mpr hnd
  rw [find?_eq_unique _ _ _ hndz hmem]
  rfl

lemma trimChars_ne_nil_of_mem (cs : List Char) (c : Char) (hc : c ∈ cs)
    (hw : isWSChar c = false) : trimChars cs ≠ [] := by
  intro h0
  unfold trimChars at h0
  rw [List.reverse_eq_nil_iff, List.dropWhile_eq_nil_iff] at h0
  have hx : c ∈ List.takeWhile isWSChar cs ++ List.dropWhile isWSChar cs := by
    rw [List.takeWhile_append_dropWhile]
    exact hc
  rcases List.mem_append.mp hx with h1 | h1
  · rw [List.mem_takeWhile_imp h1] at hw
    simp at hw
  · rw [h0 c (by simp [h1])] at hw
    simp at hw

lemma trimChars_nil_of_all (cs : List Char) (h : ∀ c ∈ cs, isWSChar c = true) :
    trimChars cs = [] := by
  unfold trimChars
  rw [List.dropWhile_eq_nil_iff.mpr h]
  simp

lemma serializeLine_has_nonws (R : List String) (hRne : R ≠ [])
    (hR1 : ∀ r ∈ R, trimStr r = r) (hrow : R ≠ [""]) :
    ∃ c ∈ serializeLine R, isWSChar c = false := by
  cases R with
  | nil => exact absurd rfl hRne
  | cons r tl =>
    cases tl with
    | nil =>
      have hrne : r ≠ "" := by
        intro h
        exact hrow (by rw [h])
      rw [show serializeLine [r] = quoteField r from rfl]
      by_cases hq : needsQuote r = true
      · refine ⟨'"', ?_, by decide⟩
        unfold quoteField
        rw [if_pos hq]
        simp
      · unfold quoteField
        rw [if_neg hq]
        by_contra hall
        push_neg at hall
        have hwsall : ∀ c ∈ r.toList, isWSChar c = true := by
          intro c hc
          have := hall c hc
          revert this
          cases isWSChar c <;> simp
        have h1 : trimChars r.toList = [] := trimChars_nil_of_all _ hwsall
        have h2 : trimChars r.toList = r.toList := trimStr_toList r (hR1 r (by simp))
        rw [h1] at h2
        have : r = "" := by
          have := congrArg String.mk h2.symm
          rwa [stringMk_toList] at this
        exact hrne this
    | cons s tl2 =>
      refine ⟨',', ?_, by decide⟩
      rw [show serializeLine (r :: s :: tl2) =
        quoteField r ++ ',' :: serializeLine (s :: tl2) from rfl]
      simp


set_option maxHeartbeats 1000000 in
/-- C6, amended: the round-trip holds for values free of double quotes
and carriage returns that carry no leading or trailing whitespace --
including values containing commas and embedded newlines when quoted --
under distinct plain headers, except for the degenerate single empty
field row, which the blank-line filter drops. -/
theorem c6_roundtrip_amended (H R : List String)
    (hlen : R.length = H.length) (hHne : H ≠ []) (hHnd : H.Nodup)
    (hH : ∀ h ∈ H, (∀ c ∈ h.toList, c ≠ '"' ∧ c ≠ ',' ∧ c ≠ '\n' ∧ c ≠ '\r') ∧
      trimStr h = h)
    (hR : ∀ r ∈ R, (∀ c ∈ r.toList, c ≠ '"' ∧ c ≠ '\r') ∧ trimStr r = r)
    (hrow : ¬(H.length = 1 ∧ R = [""])) :
    parseCsvToObjects (serializeAsCsv H R) = [H.zip R] ∧
    ∀ i : Nat, ∀ hi : i < H.length,
      jsObjGet (H.zip R) (H.get ⟨i, hi⟩) = some (R.get ⟨i, by omega⟩) := by
  refine ⟨?_, fun i hi => jsObjGet_zip H R hHnd hlen i hi⟩
  obtain ⟨h0, Htl, hHcons⟩ := List.exists_cons_of_ne_nil hHne
  have hRne : R ≠ [] := by
    intro h
    rw [h] at hlen
    exact hHne (List.length_eq_zero.mp hlen.symm)
  obtain ⟨r0, Rtl, hRcons⟩ := List.exists_cons_of_ne_nil hRne
  have hrow2 : R ≠ [""] := by
    intro h
    apply hrow
    refine ⟨?_, h⟩
    rw [h] at hlen
    simpa using hlen.symm
  obtain ⟨cw, hcw, hcwws⟩ :=
    serializeLine_has_nonws R hRne (fun r hr => (hR r hr).2) hrow2
  have hSRne : serializeLine R ≠ [] := List.ne_nil_of_mem hcw
  have hlines : csvLinesGo ((serializeAsCsv H R).toList) [] false =
      [serializeLine H, serializeLine R] := by
    rw [show (serializeAsCsv H R).toList =
      serializeLine H ++ '\n' :: serializeLine R from rfl]
    exact csvLines_serialize H R
      (fun f hf c hc => ⟨((hH f hf).1 c hc).1, ((hH f hf).1 c hc).2.2.2⟩)
      (fun f hf c hc => (hR f hf).1 c hc) hSRne
  have hheader : (splitCsv (serializeLine H)).map trimStr = H := by
    rw [hHcons, splitCsv_serialize h0 Htl (fun g hg =>
      ⟨fun c hc => ((hH g (hHcons ▸ hg)).1 c hc).1, (hH g (hHcons ▸ hg)).2⟩)]
    rw [← hHcons]
    calc H.map trimStr = H.map id := List.map_congr_left (fun x hx => (hH x hx).2)
      _ = H := List.map_id _
  have hsplitR : splitCsv (serializeLine R) = R := by
    rw [hRcons, splitCsv_serialize r0 Rtl (fun g hg =>
      ⟨fun c hc => ((hR g (hRcons ▸ hg)).1 c hc).1, (hR g (hRcons ▸ hg)).2⟩)]
  have htrimne : ¬ trimChars (serializeLine R) = [] :=
    trimChars_ne_nil_of_mem _ cw hcw hcwws
  unfold parseCsvToObjects
  rw [hlines]
  simp only [List.filterMap_cons, List.filterMap_nil, if_neg htrimne]
  rw [hheader, hsplitR, mkRowObj_eq_zip H R hlen]

/-- C6, counterexample.  The claim asserts exact reproduction of field
values including double quotes; in fact a value containing a quote is
mangled (doubled-quote unescaping is applied twice across the two scanner
passes), leading or trailing whitespace is trimmed away, a carriage
return inside a quoted value is dropped, and a single empty field row is
dropped entirely by the blank-line filter. -/
theorem c6_roundtrip_counterexample :
    (parseCsvToObjects (serializeAsCsv ["h"] ["a\"b"]) = [[("h", "ab")]] ∧
      "ab" ≠ "a\"b") ∧
    (parseCsvToObjects (serializeAsCsv ["h"] [" a "]) = [[("h", "a")]] ∧
      "a" ≠ " a ") ∧
    (parseCsvToObjects (serializeAsCsv ["h"] ["a\rb"]) = [[("h", "ab")]] ∧
      "ab" ≠ "a\rb") ∧
    parseCsvToObjects (serializeAsCsv ["h"] [""]) = [] := by
  decide

/-- C6, witness for the amended theorem: a value containing a comma and
an embedded newline survives the round-trip when properly quoted. -/
theorem c6_roundtrip_amended_witness :
    parseCsvToObjects (serializeAsCsv ["name", "notes"] ["Ann", "a,b\nc"]) =
      [[("name", "Ann"), ("notes", "a,b\nc")]] := by
  have h := (c6_roundtrip_amended ["name", "notes"] ["Ann", "a,b\nc"]
    (by decide) (by decide) (by decide) (by decide) (by decide) (by decide)).1
  rw [h]
  rfl



lemma digitsRevFuel_eq (fuel n : ℕ) (h : n ≤ fuel) :
    digitsRevFuel fuel n = Nat.digits 10 n := by
  induction fuel generalizing n with
  | zero =>
    have : n = 0 := by omega
    subst this
    simp [digitsRevFuel]
  | succ fuel ih =>
    cases n with
    | zero => simp [digitsRevFuel]
    | succ m =>
      rw [show digitsRevFuel (fuel + 1) (m + 1) =
        ((m + 1) % 10) :: digitsRevFuel fuel ((m + 1) / 10) from rfl]
      rw [ih ((m + 1) / 10) (by omega)]
      rw [Nat.digits_def' (by norm_num) (Nat.succ_pos m)]

lemma digitsRev_eq (n : ℕ) : digitsRev n = Nat.digits 10 n :=
  digitsRevFuel_eq n n le_rfl

lemma maxPowFuel_spec (p : ℕ) (hp : 2 ≤ p) :
    ∀ fuel n, n ≠ 0 → n ≤ fuel →
    p ^ maxPowFuel p fuel n ∣ n ∧ ¬ p ^ (maxPowFuel p fuel n + 1) ∣ n := by
  intro fuel
  induction fuel with
  | zero => intro n hn h; omega
  | succ fuel ih =>
    intro n hn h
    by_cases hdvd : n % p = 0
    · rw [show maxPowFuel p (fuel + 1) n = maxPowFuel p fuel (n / p) + 1 from by
        simp [maxPowFuel, hp, hn, hdvd]]
      have hpn : p ∣ n := Nat.dvd_of_mod_eq_zero hdvd
      have hnp : n / p ≠ 0 := by
        intro h0
        have h3 := Nat.div_add_mod n p
        rw [h0, hdvd] at h3
        omega
      have hle : n / p ≤ fuel := by
        have := Nat.div_lt_self (Nat.pos_of_ne_zero hn) (by omega : 1 < p)
        omega
      obtain ⟨h1, h2⟩ := ih (n / p) hnp hle
      set e := maxPowFuel p fuel (n / p) with he
      have hn2 : n = p * (n / p) := (Nat.mul_div_cancel' hpn).symm
      constructor
      · have h3 : p * p ^ e ∣ p * (n / p) := mul_dvd_mul_left p h1
        rw [← hn2] at h3
        rw [pow_succ, mul_comm]
        exact h3
      · intro hcon
        apply h2
        have h4 : p * p ^ (e + 1) ∣ n := by
          rw [show p * p ^ (e + 1) = p ^ (e + 1 + 1) from by rw [pow_succ]; ring]
          exact hcon
        rw [hn2] at h4
        exact (mul_dvd_mul_iff_left (by omega : p ≠ 0)).mp h4
    · rw [show maxPowFuel p (fuel + 1) n = 0 from by simp [maxPowFuel, hdvd]]
      refine ⟨by simp, ?_⟩
      intro hcon
      rw [pow_one] at hcon
      obtain ⟨w, hw⟩ := hcon
      rw [hw] at hdvd
      exact hdvd (Nat.mul_mod_right p w)

lemma maxPow_spec (p n : ℕ) (hp : 2 ≤ p) (hn : n ≠ 0) :
    p ^ maxPow p n ∣ n ∧ ¬ p ^ (maxPow p n + 1) ∣ n :=
  maxPowFuel_spec p hp n n hn le_rfl

lemma le_maxPow (p n k : ℕ) (hp : 2 ≤ p) (hn : n ≠ 0) (h : p ^ k ∣ n) :
    k ≤ maxPow p n := by
  by_contra hlt
  push_neg at hlt
  exact (maxPow_spec p n hp hn).2 (dvd_trans (pow_dvd_pow p (by omega)) h)

lemma dvd_ten_pow_max (b : ℕ) (hb : b ≠ 0) (e : ℕ) (h : b ∣ 10 ^ e) :
    b ∣ 10 ^ max (maxPow 2 b) (maxPow 5 b) := by
  set i := maxPow 2 b with hi
  set j := maxPow 5 b with hj
  obtain ⟨hdvd2, hnot2⟩ := maxPow_spec 2 b (by norm_num) hb
  rw [← hi] at hdvd2 hnot2
  obtain ⟨c, hc⟩ := hdvd2
  have hc0 : c ≠ 0 := by
    rintro rfl
    rw [mul_zero] at hc
    exact hb hc
  have h2c : ¬ 2 ∣ c := by
    rintro ⟨d2, hd2⟩
    apply hnot2
    exact ⟨d2, by rw [hc, hd2, pow_succ]; ring⟩
  have hcdvd : c ∣ 10 ^ e := dvd_trans ⟨2 ^ i, by rw [hc]; ring⟩ h
  have hcop : Nat.Coprime 2 c := Nat.prime_two.coprime_iff_not_dvd.mpr h2c
  have hc5 : c ∣ 5 ^ e := by
    have h10 : (10 : ℕ) ^ e = 2 ^ e * 5 ^ e := by
      rw [show (10 : ℕ) = 2 * 5 from rfl, mul_pow]
    rw [h10] at hcdvd
    exact (Nat.Coprime.pow_left e hcop).symm.dvd_of_dvd_mul_left hcdvd
  obtain ⟨hd5, hnot5⟩ := maxPow_spec 5 c (by norm_num) hc0
  set g := maxPow 5 c with hg
  obtain ⟨r, hr⟩ := hd5
  have h5r : ¬ 5 ∣ r := by
    rintro ⟨d5, hd5b⟩
    apply hnot5
    exact ⟨d5, by rw [hr, hd5b, pow_succ]; ring⟩
  have hrdvd : r ∣ 5 ^ e := dvd_trans ⟨5 ^ g, by rw [hr]; ring⟩ hc5
  have hrcop : Nat.Coprime 5 r := Nat.prime_five.coprime_iff_not_dvd.mpr h5r
  have hr1 : r = 1 :=
    Nat.Coprime.eq_one_of_dvd ((Nat.Coprime.pow_left e hrcop).symm) hrdvd
  have hgj : g ≤ j := by
    rw [hj]
    apply le_maxPow 5 b _ (by norm_num) hb
    refine dvd_trans ?_ (⟨2 ^ i, by rw [hc]; ring⟩ : c ∣ b)
    rw [hr, hr1, mul_one]
  rw [hc, hr, hr1, mul_one]
  calc 2 ^ i * 5 ^ g
      ∣ 2 ^ max i j * 5 ^ max i j :=
        mul_dvd_mul (pow_dvd_pow 2 (le_max_left _ _))
          (pow_dvd_pow 5 (le_trans hgj (le_max_right _ _)))
    _ = 10 ^ max i j := by
        rw [← mul_pow]
        norm_num


lemma toDigitChar_facts : ∀ d : ℕ, d < 10 →
    isDigitChar (toDigitChar d) = true ∧ isNumChar (toDigitChar d) = true ∧
    digitVal (toDigitChar d) = d ∧ toDigitChar d ≠ '-' ∧ toDigitChar d ≠ '.' := by
  decide

lemma natFromDigitCharsAcc (l : List Char) (acc : ℕ) :
    l.foldl (fun a c => 10 * a + digitVal c) acc =
      acc * 10 ^ l.length + natFromDigitChars l := by
  induction l generalizing acc with
  | nil => simp [natFromDigitChars]
  | cons c tl ih =>
    simp only [List.foldl_cons, List.length_cons]
    rw [ih (10 * acc + digitVal c)]
    rw [show natFromDigitChars (c :: tl) =
      tl.foldl (fun a c => 10 * a + digitVal c) (digitVal c) from by
        simp [natFromDigitChars]]
    rw [ih (digitVal c)]
    ring

lemma natFromDigitChars_append (A B : List Char) :
    natFromDigitChars (A ++ B) =
      natFromDigitChars A * 10 ^ B.length + natFromDigitChars B := by
  unfold natFromDigitChars
  rw [List.foldl_append]
  rw [natFromDigitCharsAcc B (List.foldl (fun a c => 10 * a + digitVal c) 0 A)]
  rfl

lemma natFromDigitChars_replicate_zero (m : ℕ) :
    natFromDigitChars (List.replicate m '0') = 0 := by
  induction m with
  | zero => rfl
  | succ m ih =>
    rw [List.replicate_succ]
    rw [show natFromDigitChars ('0' :: List.replicate m '0') =
      (List.replicate m '0').foldl (fun a c => 10 * a + digitVal c)
        (10 * 0 + digitVal '0') from rfl]
    rw [show (10 * 0 + digitVal '0') = 0 from by decide]
    exact ih

lemma natFrom_digitsStr (s : ℕ) : natFromDigitChars (digitsStr s) = s := by
  unfold digitsStr
  rw [digitsRev_eq]
  have key : ∀ ds : List ℕ, (∀ d ∈ ds, d < 10) →
      natFromDigitChars ((ds.reverse).map toDigitChar) = Nat.ofDigits 10 ds := by
    intro ds hds
    induction ds with
    | nil => rfl
    | cons d tl ih =>
      rw [List.reverse_cons, List.map_append, natFromDigitChars_append]
      rw [ih (fun x hx => hds x (by simp [hx]))]
      have hd := hds d (by simp)
      rw [show natFromDigitChars ([d].map toDigitChar) = digitVal (toDigitChar d)
        from by simp [natFromDigitChars]]
      rw [(toDigitChar_facts d hd).2.2.1]
      rw [Nat.ofDigits_cons]
      simp
      ring
  rw [key _ (fun d hd => Nat.digits_lt_base (by norm_num) hd)]
  exact Nat.ofDigits_digits 10 s

lemma digitsStr_chars (s : ℕ) : ∀ c ∈ digitsStr s,
    isDigitChar c = true ∧ isNumChar c = true ∧ c ≠ '-' := by
  intro c hc
  unfold digitsStr at hc
  rw [digitsRev_eq] at hc
  obtain ⟨d, hd, rfl⟩ := List.mem_map.mp hc
  have hd10 : d < 10 := Nat.digits_lt_base (by norm_num) (List.mem_reverse.mp hd)
  exact ⟨(toDigitChar_facts d hd10).1, (toDigitChar_facts d hd10).2.1,
    (toDigitChar_facts d hd10).2.2.2.1⟩

lemma digitsStr_len (s : ℕ) : (digitsStr s).length = (digitsRev s).length := by
  simp [digitsStr]

lemma digitsStr_ne_nil (s : ℕ) (hs : s ≠ 0) : digitsStr s ≠ [] := by
  unfold digitsStr
  simp only [ne_eq, List.map_eq_nil_iff, List.reverse_eq_nil_iff]
  rw [digitsRev_eq]
  exact Nat.digits_ne_nil_iff_ne_zero.mpr hs

lemma stripNum_id (s : String) (h : ∀ c ∈ s.toList, isNumChar c = true) :
    stripNum s = s := by
  unfold stripNum
  rw [List.filter_eq_self.mpr h, stringMk_toList]

lemma takeWhile_all_digits (l : List Char) (h : ∀ c ∈ l, isDigitChar c = true) :
    l.takeWhile isDigitChar = l := by
  induction l with
  | nil => rfl
  | cons c tl ih =>
    rw [List.takeWhile_cons_of_pos (h c (by simp))]
    rw [ih (fun d hd => h d (by simp [hd]))]

lemma takeWhile_stop (A : List Char) (c : Char) (B : List Char)
    (hA : ∀ a ∈ A, isDigitChar a = true) (hc : isDigitChar c = false) :
    (A ++ c :: B).takeWhile isDigitChar = A ∧
    ((A ++ c :: B).drop ((A ++ c :: B).takeWhile isDigitChar).length = c :: B) := by
  have h1 : (A ++ c :: B).takeWhile isDigitChar = A := by
    induction A with
    | nil => simp [List.takeWhile_cons_of_neg, hc]
    | cons a tl ih =>
      rw [List.cons_append, List.takeWhile_cons_of_pos (hA a (by simp))]
      rw [ih (fun d hd => hA d (by simp [hd]))]
  refine ⟨h1, ?_⟩
  rw [h1]
  exact List.drop_left A (c :: B)

lemma parseUnsigned_digits (l : List Char) (hne : l ≠ [])
    (h : ∀ c ∈ l, isDigitChar c = true) :
    parseUnsigned l = some ((natFromDigitChars l : ℕ) : ℚ) := by
  unfold parseUnsigned
  simp only [takeWhile_all_digits l h, List.drop_length]
  simp [List.isEmpty_iff, hne]

lemma parseUnsigned_dec (A B : List Char) (hA : ∀ c ∈ A, isDigitChar c = true)
    (hB : ∀ c ∈ B, isDigitChar c = true) (hne : A ≠ []) :
    parseUnsigned (A ++ '.' :: B) =
      some (mkRat (natFromDigitChars A * 10 ^ B.length + natFromDigitChars B)
        (10 ^ B.length)) := by
  obtain ⟨ht, hd⟩ := takeWhile_stop A '.' B hA (by decide)
  have hcond : (B.all isDigitChar && (!A.isEmpty || !B.isEmpty)) = true := by
    simp only [Bool.and_eq_true, Bool.or_eq_true, Bool.not_eq_true']
    exact ⟨List.all_eq_true.mpr hB, Or.inl (by simp [List.isEmpty_iff, hne])⟩
  rw [ht] at hd
  unfold parseUnsigned
  simp only [ht, hd, hcond, if_true]

lemma jsNumber_of_digit_head (s : String) (hne : s.toList ≠ [])
    (hhead : ∀ c, s.toList.head? = some c → c ≠ '-') :
    jsNumber s = parseUnsigned s.toList := by
  unfold jsNumber
  split
  · rename_i heq
    exact absurd heq hne
  · rename_i rest heq
    exfalso
    exact hhead '-' (by rw [heq]; rfl) rfl
  · rfl

lemma jsNumber_neg_cons (cs : List Char) :
    jsNumber (String.mk ('-' :: cs)) = (parseUnsigned cs).map Neg.neg := rfl


lemma parseUnsigned_den_dvd (cs : List Char) (v : ℚ)
    (h : parseUnsigned cs = some v) : ∃ m : ℕ, v.den ∣ 10 ^ m := by
  simp only [parseUnsigned] at h
  split at h
  · split at h
    · exact absurd h (by simp)
    · refine ⟨0, ?_⟩
      obtain rfl : ((natFromDigitChars (cs.takeWhile isDigitChar) : ℕ) : ℚ) = v :=
        Option.some.inj h
      simp [Rat.den_natCast]
  · split at h
    · obtain rfl := Option.some.inj h
      rename_i b _ _
      exact ⟨b.length, by rw [Rat.mkRat_eq_divInt]; exact Int.natCast_dvd_natCast.mp (Rat.den_dvd _ _)⟩
    · exact absurd h (by simp)
  · exact absurd h (by simp)

lemma jsNumber_cases (s : String) :
    jsNumber s = some 0 ∨ (∃ cs, jsNumber s = (parseUnsigned cs).map Neg.neg) ∨
    (∃ cs, jsNumber s = parseUnsigned cs) := by
  unfold jsNumber
  split
  · exact Or.inl rfl
  · exact Or.inr (Or.inl ⟨_, rfl⟩)
  · exact Or.inr (Or.inr ⟨_, rfl⟩)

lemma parseNum_den_dvd (x : String) : ∃ m : ℕ, (parseNum x).den ∣ 10 ^ m := by
  unfold parseNum
  split
  · exact ⟨0, by simp⟩
  · rcases jsNumber_cases (stripNum x) with h | ⟨cs, h⟩ | ⟨cs, h⟩ <;> rw [h]
    · exact ⟨0, by simp⟩
    · cases hp : parseUnsigned cs with
      | none => exact ⟨0, by simp⟩
      | some v =>
        obtain ⟨m, hm⟩ := parseUnsigned_den_dvd cs v hp
        exact ⟨m, by simpa [Rat.neg_den] using hm⟩
    · cases hp : parseUnsigned cs with
      | none => exact ⟨0, by simp⟩
      | some v => exact ⟨_, (parseUnsigned_den_dvd cs v hp).choose_spec⟩

lemma mkRat_eq_of_mul (q : ℚ) (s t d : ℕ) (hdt : t ≤ d)
    (hq10 : (s : ℚ) * 10 ^ t = q * 10 ^ d) :
    mkRat (s : ℤ) (10 ^ (d - t)) = q := by
  rw [Rat.mkRat_eq_div]
  push_cast
  rw [div_eq_iff (show ((10 : ℚ)) ^ (d - t) ≠ 0 by positivity)]
  have h7 : (10 : ℚ) ^ d = 10 ^ (d - t) * 10 ^ t := by
    rw [← pow_add]
    congr 1
    omega
  have h8 : ((10 : ℚ) ^ t) ≠ 0 := by positivity
  apply mul_right_cancel₀ h8
  rw [hq10, h7]
  ring

lemma jsToStringPos_spec (q : ℚ) (e : ℕ) (hq : 0 < q) (hden : q.den ∣ 10 ^ e)
    (hlo : mkRat 1 1000000 ≤ q) (hhi : q < 10 ^ 21) :
    parseUnsigned (jsToStringPos q) = some q ∧
    (∀ c ∈ jsToStringPos q, isNumChar c = true ∧ c ≠ '-') ∧
    jsToStringPos q ≠ [] := by
  have hb0 : q.den ≠ 0 := q.den_nz
  have hnum_pos : 0 < q.num := Rat.num_pos.mpr hq
  have hbd0 : q.den ∣ 10 ^ max (maxPow 2 q.den) (maxPow 5 q.den) :=
    dvd_ten_pow_max q.den hb0 e hden
  have hqden : ((q.den : ℕ) : ℚ) ≠ 0 := Nat.cast_ne_zero.mpr hb0
  have hnumq : (q.num : ℚ) = q * ((q.den : ℕ) : ℚ) := by
    have h4 := Rat.num_div_den q
    rw [div_eq_iff hqden] at h4
    exact h4
  have habs : ((q.num.natAbs : ℕ) : ℚ) = (q.num : ℚ) := by
    rw [Int.cast_natAbs]
    exact congrArg (fun z : ℤ => (z : ℚ)) (abs_of_pos hnum_pos)
  simp only [jsToStringPos]
  set b := q.den with hbdef
  set d := max (maxPow 2 b) (maxPow 5 b) with hddef
  set N := q.num.natAbs * 10 ^ d / b with hNdef
  set t := maxPow 10 N with htdef
  set s := N / 10 ^ t with hsdef
  set k := (digitsRev s).length with hkdef
  have hNb : N * b = q.num.natAbs * 10 ^ d := by
    rw [hNdef]
    exact Nat.div_mul_cancel (hbd0.mul_left _)
  have hN0 : N ≠ 0 := by
    intro h0
    rw [h0, zero_mul] at hNb
    have h1 : q.num.natAbs ≠ 0 := Int.natAbs_ne_zero.mpr (by omega)
    have h2 : (10 : ℕ) ^ d ≠ 0 := by positivity
    exact Nat.mul_ne_zero h1 h2 hNb.symm
  obtain ⟨ht1, ht2⟩ := maxPow_spec 10 N (by norm_num) hN0
  rw [← htdef] at ht1 ht2
  have hst : s * 10 ^ t = N := by
    rw [hsdef]
    exact Nat.div_mul_cancel ht1
  have hs0 : s ≠ 0 := by
    intro h0
    rw [h0, zero_mul] at hst
    exact hN0 hst.symm
  have hkdig : k = (Nat.digits 10 s).length := by rw [hkdef, digitsRev_eq]
  have hsk : s < 10 ^ k := by
    rw [hkdig]
    exact Nat.lt_base_pow_length_digits (by norm_num)
  have hks : 10 ^ k ≤ 10 * s := by
    rw [hkdig]
    exact Nat.base_pow_length_digits_le 10 s (by norm_num) hs0
  have hk1 : 1 ≤ k := by
    rw [hkdig]
    exact List.length_pos.mpr (Nat.digits_ne_nil_iff_ne_zero.mpr hs0)
  have hDlen : (digitsStr s).length = k := by
    rw [hkdef, digitsStr]
    simp
  have h1q : (N : ℚ) * ((b : ℕ) : ℚ) = ((q.num.natAbs : ℕ) : ℚ) * 10 ^ d := by
    exact_mod_cast hNb
  have hNq : (N : ℚ) = q * 10 ^ d := by
    rw [habs, hnumq] at h1q
    exact mul_right_cancel₀ hqden (by rw [h1q]; ring)
  have hq10 : (s : ℚ) * 10 ^ t = q * 10 ^ d := by
    rw [← hNq, ← hst]
    push_cast
    ring
  have hN_lt : N < 10 ^ (21 + d) := by
    have h1 : (N : ℚ) < 10 ^ (21 + d) := by
      rw [hNq, pow_add]
      exact mul_lt_mul_of_pos_right hhi (by positivity)
    exact_mod_cast h1
  have hn_hi : k + t ≤ 21 + d := by
    by_contra hcon
    push_neg at hcon
    have hsk1 : 10 ^ (k - 1) ≤ s := by
      have hpow : 10 ^ (k - 1) * 10 = 10 ^ k := by
        rw [← pow_succ]
        congr 1
        omega
      omega
    have h1 : 10 ^ (k - 1 + t) ≤ N := by
      rw [← hst, pow_add]
      exact Nat.mul_le_mul_right _ hsk1
    have h2 : 10 ^ (21 + d) ≤ 10 ^ (k - 1 + t) :=
      Nat.pow_le_pow_right (by norm_num) (by omega)
    omega
  have hlo' : (1 : ℚ) / 1000000 ≤ q := by
    rw [Rat.mkRat_eq_div] at hlo
    push_cast at hlo
    exact hlo
  have h6le : (10 : ℚ) ^ d ≤ (N : ℚ) * 10 ^ 6 := by
    rw [hNq]
    nlinarith [mul_nonneg (sub_nonneg.mpr hlo')
      (le_of_lt (show (0 : ℚ) < 10 ^ d by positivity))]
  have hN6 : 10 ^ d ≤ N * 10 ^ 6 := by exact_mod_cast h6le
  have hn_lo : d < k + t + 6 := by
    by_contra hcon
    push_neg at hcon
    have h1 : N * 10 ^ 6 < 10 ^ (k + t + 6) := by
      calc N * 10 ^ 6 = s * (10 ^ t * 10 ^ 6) := by rw [← hst]; ring
        _ < 10 ^ k * (10 ^ t * 10 ^ 6) :=
            mul_lt_mul_of_pos_right hsk (by positivity)
        _ = 10 ^ (k + t + 6) := by rw [pow_add, pow_add]; ring
    have h2 : 10 ^ (k + t + 6) ≤ 10 ^ d := Nat.pow_le_pow_right (by norm_num) hcon
    omega
  have hnumc : ∀ c : Char, isDigitChar c = true → isNumChar c = true ∧ c ≠ '-' := by
    intro c hc
    simp only [isDigitChar, Bool.and_eq_true, decide_eq_true_eq] at hc
    constructor
    · simp only [isNumChar, Bool.or_eq_true, Bool.and_eq_true, decide_eq_true_eq]
      exact Or.inl (Or.inl ⟨hc.1, hc.2⟩)
    · intro hcon
      rw [hcon] at hc
      exact absurd hc.1 (by decide)
  by_cases h1 : ((k : ℤ) ≤ (k : ℤ) + (t : ℤ) - (d : ℤ) ∧ (k : ℤ) + (t : ℤ) - (d : ℤ) ≤ 21)
  · rw [if_pos h1]
    have hm : ((k : ℤ) + (t : ℤ) - (d : ℤ) - (k : ℤ)).toNat = t - d := by omega
    rw [hm]
    have hall : ∀ c ∈ digitsStr s ++ List.replicate (t - d) '0', isDigitChar c = true := by
      intro c hc
      rcases List.mem_append.mp hc with h | h
      · exact (digitsStr_chars s c h).1
      · rw [List.eq_of_mem_replicate h]
        decide
    have hne2 : digitsStr s ++ List.replicate (t - d) '0' ≠ [] := by
      intro hcon
      rcases List.append_eq_nil.mp hcon with ⟨ha, _⟩
      exact digitsStr_ne_nil s hs0 ha
    refine ⟨?_, fun c hc => hnumc c (hall c hc), hne2⟩
    rw [parseUnsigned_digits _ hne2 hall]
    congr 1
    rw [natFromDigitChars_append, natFromDigitChars_replicate_zero,
      natFrom_digitsStr, List.length_replicate, add_zero]
    push_cast
    have h7 : (10 : ℚ) ^ t = 10 ^ (t - d) * 10 ^ d := by
      rw [← pow_add]
      congr 1
      omega
    have h8 : ((10 : ℚ) ^ d) ≠ 0 := by positivity
    apply mul_right_cancel₀ h8
    rw [← hq10, h7]
    ring
  · rw [if_neg h1]
    by_cases h2 : (0 < (k : ℤ) + (t : ℤ) - (d : ℤ) ∧ (k : ℤ) + (t : ℤ) - (d : ℤ) ≤ 21)
    · rw [if_pos h2]
      have hnk : ((k : ℤ) + (t : ℤ) - (d : ℤ)).toNat = k + t - d := by omega
      rw [hnk]
      have hA : ∀ c ∈ (digitsStr s).take (k + t - d), isDigitChar c = true :=
        fun c hc => (digitsStr_chars s c (List.mem_of_mem_take hc)).1
      have hB : ∀ c ∈ (digitsStr s).drop (k + t - d), isDigitChar c = true :=
        fun c hc => (digitsStr_chars s c (List.mem_of_mem_drop hc)).1
      have hAne : (digitsStr s).take (k + t - d) ≠ [] := by
        intro hcon
        have hlen := congrArg List.length hcon
        rw [List.length_take, hDlen] at hlen
        simp at hlen
        omega
      refine ⟨?_, ?_, by simp⟩
      · rw [parseUnsigned_dec _ _ hA hB hAne]
        congr 1
        have hBlen : ((digitsStr s).drop (k + t - d)).length = d - t := by
          rw [List.length_drop, hDlen]
          omega
        have hAB : natFromDigitChars ((digitsStr s).take (k + t - d)) * 10 ^ (d - t)
            + natFromDigitChars ((digitsStr s).drop (k + t - d)) = s := by
          have h9 := natFromDigitChars_append ((digitsStr s).take (k + t - d))
            ((digitsStr s).drop (k + t - d))
          rw [List.take_append_drop, natFrom_digitsStr, hBlen] at h9
          exact h9.symm
        rw [hBlen]
        rw [show ((natFromDigitChars ((digitsStr s).take (k + t - d)) : ℤ) * 10 ^ (d - t)
            + (natFromDigitChars ((digitsStr s).drop (k + t - d)) : ℤ)) = (s : ℤ) from by
          exact_mod_cast hAB]
        exact mkRat_eq_of_mul q s t d (by omega) hq10
      · intro c hc
        rcases List.mem_append.mp hc with h | h
        · exact hnumc c (hA c h)
        · rcases List.mem_cons.mp h with rfl | h
          · exact ⟨by decide, by decide⟩
          · exact hnumc c (hB c h)
    · rw [if_neg h2]
      by_cases h3 : (-6 < (k : ℤ) + (t : ℤ) - (d : ℤ) ∧ (k : ℤ) + (t : ℤ) - (d : ℤ) ≤ 0)
      · rw [if_pos h3]
        have hm0 : (-((k : ℤ) + (t : ℤ) - (d : ℤ))).toNat = d - t - k := by omega
        rw [hm0]
        have hB : ∀ c ∈ List.replicate (d - t - k) '0' ++ digitsStr s,
            isDigitChar c = true := by
          intro c hc
          rcases List.mem_append.mp hc with h | h
          · rw [List.eq_of_mem_replicate h]
            decide
          · exact (digitsStr_chars s c h).1
        refine ⟨?_, ?_, by simp⟩
        · rw [← List.singleton_append]
          rw [parseUnsigned_dec ['0'] _ (by decide) hB (by decide)]
          congr 1
          have hBlen : (List.replicate (d - t - k) '0' ++ digitsStr s).length = d - t := by
            rw [List.length_append, List.length_replicate, hDlen]
            omega
          have hBv : natFromDigitChars (List.replicate (d - t - k) '0' ++ digitsStr s)
              = s := by
            rw [natFromDigitChars_append, natFromDigitChars_replicate_zero,
              natFrom_digitsStr, zero_mul, zero_add]
          rw [hBlen]
          rw [show ((natFromDigitChars ['0'] : ℤ) * 10 ^ (d - t)
              + (natFromDigitChars (List.replicate (d - t - k) '0' ++ digitsStr s) : ℤ))
              = (s : ℤ) from by
            rw [show natFromDigitChars ['0'] = 0 from by decide]
            rw [hBv]
            push_cast
            ring]
          exact mkRat_eq_of_mul q s t d (by omega) hq10
        · intro c hc
          rcases List.mem_cons.mp hc with rfl | hc
          · exact ⟨by decide, by decide⟩
          · rcases List.mem_cons.mp hc with rfl | hc
            · exact ⟨by decide, by decide⟩
            · exact hnumc c (hB c hc)
      · exfalso
        omega

/-- C7 (counterexample): the numeric coercion is not idempotent through
the string round trip.  `"1000000000000000000000"` parses to `10 ^ 21`,
which `Number::toString` renders in exponential notation as `"1e+21"`;
the strip regex deletes the `e` and the `+`, leaving `"121"`, so the
round trip yields `121`.  Likewise `"0.0000001"` parses to the exact
value `1 / 10 ^ 7` but renders as `"1e-7"`, which strips to `"1-7"`;
`Number` of that is `NaN`, so `|| 0` turns the round trip into `0`. -/
theorem c7_coercion_counterexample :
    parseNum "1000000000000000000000" = 10 ^ 21 ∧
    parseNum (jsToString (parseNum "1000000000000000000000")) = 121 ∧
    parseNum "0.0000001" = mkRat 1 10000000 ∧
    parseNum (jsToString (parseNum "0.0000001")) = 0 := by
  refine ⟨by decide, by decide, by decide, by decide⟩

set_option maxHeartbeats 1000000

/-- C7 (amended): for every string whose parsed numeric value is zero or
has magnitude in `[10 ^ (-6), 10 ^ 21)` — the range where ECMAScript
`Number::toString` uses a plain decimal notation rather than the
exponential one — `parseNum` is idempotent through the string round trip:
`parseNum (String(parseNum x)) = parseNum x`. -/
theorem c7_coercion_amended (x : String)
    (hq : parseNum x = 0 ∨
      (mkRat 1 1000000 ≤ |parseNum x| ∧ |parseNum x| < 10 ^ 21)) :
    parseNum (jsToString (parseNum x)) = parseNum x := by
  obtain ⟨e, hden⟩ := parseNum_den_dvd x
  rcases hq with h0 | ⟨hlo, hhi⟩
  · rw [h0]
    decide
  · rcases lt_trichotomy (parseNum x) 0 with hneg | h0 | hpos
    · have habs : |parseNum x| = -(parseNum x) := abs_of_neg hneg
      rw [habs] at hlo hhi
      have hdenn : (-(parseNum x)).den ∣ 10 ^ e := by
        rw [Rat.neg_den]
        exact hden
      obtain ⟨hparse, hchars, hne⟩ :=
        jsToStringPos_spec (-(parseNum x)) e (by linarith) hdenn hlo hhi
      rw [show jsToString (parseNum x)
          = String.mk ('-' :: jsToStringPos (-(parseNum x))) from by
        rw [jsToString, if_neg (ne_of_lt hneg), if_pos hneg]]
      have htl : (String.mk ('-' :: jsToStringPos (-(parseNum x)))).toList
          = '-' :: jsToStringPos (-(parseNum x)) := rfl
      have hnemp : String.mk ('-' :: jsToStringPos (-(parseNum x))) ≠ "" := by
        intro hcon
        have h5 := congrArg String.toList hcon
        rw [htl] at h5
        simp at h5
      rw [parseNum, if_neg hnemp]
      have hstrip : stripNum (String.mk ('-' :: jsToStringPos (-(parseNum x))))
          = String.mk ('-' :: jsToStringPos (-(parseNum x))) := by
        apply stripNum_id
        rw [htl]
        intro c hc
        rcases List.mem_cons.mp hc with rfl | hc
        · decide
        · exact (hchars c hc).1
      rw [hstrip, jsNumber_neg_cons, hparse]
      simp
    · exfalso
      rw [h0, abs_zero] at hlo
      rw [Rat.mkRat_eq_div] at hlo
      norm_num at hlo
    · have habs : |parseNum x| = parseNum x := abs_of_pos hpos
      rw [habs] at hlo hhi
      obtain ⟨hparse, hchars, hne⟩ :=
        jsToStringPos_spec (parseNum x) e hpos hden hlo hhi
      rw [show jsToString (parseNum x)
          = String.mk (jsToStringPos (parseNum x)) from by
        rw [jsToString, if_neg (ne_of_gt hpos), if_neg (not_lt.mpr hpos.le)]]
      have htl : (String.mk (jsToStringPos (parseNum x))).toList
          = jsToStringPos (parseNum x) := rfl
      have hnemp : String.mk (jsToStringPos (parseNum x)) ≠ "" := by
        intro hcon
        have h5 := congrArg String.toList hcon
        rw [htl] at h5
        simp at h5
        exact hne h5
      rw [parseNum, if_neg hnemp]
      have hstrip : stripNum (String.mk (jsToStringPos (parseNum x)))
          = String.mk (jsToStringPos (parseNum x)) := by
        apply stripNum_id
        rw [htl]
        intro c hc
        exact (hchars c hc).1
      rw [hstrip]
      rw [jsNumber_of_digit_head _ (by rw [htl]; exact hne) ?head]
      · rw [htl, hparse]
        rfl
      · intro c hc
        rw [htl] at hc
        have hmem : c ∈ jsToStringPos (parseNum x) :=
          List.mem_of_mem_head? (Option.mem_def.mpr hc)
        exact (hchars c hmem).2

/-- C7 witness: `"3.5"` satisfies the magnitude hypothesis, and the
round trip through `jsToString` indeed reproduces `parseNum "3.5"`. -/
theorem c7_coercion_amended_witness :
    (parseNum "3.5" = 0 ∨
      (mkRat 1 1000000 ≤ |parseNum "3.5"| ∧ |parseNum "3.5"| < 10 ^ 21)) ∧
    parseNum (jsToString (parseNum "3.5")) = parseNum "3.5" :=
  ⟨Or.inr ⟨by decide, by decide⟩,
    c7_coercion_amended "3.5" (Or.inr ⟨by decide, by decide⟩)⟩

end Dashboard
